import Mathlib

/-!
Verification development for the task-manager sampling and aggregation engine
(`src/backend/collector.rs`, `process.rs`, `cpu.rs`, `disk.rs`, `network.rs`,
`history.rs`, `battery.rs` and `src/model/app_group.rs`).

Conventions of the shallow embedding:
* Rust `u64` values are modelled as `Nat`; where the source performs wrapping
  arithmetic (plain `+`, `-`, `*` on `u64` in release builds) the model reduces
  modulo `2 ^ 64` explicitly; `u64::saturating_sub` is exactly truncated `Nat`
  subtraction.
* Rust `f64` values are modelled as exact rationals `ℚ` (the claims under
  study are algebraic identities about the computed expressions).
* Rust `i32` process ids are modelled as `Int`.
* Rust string operations are modelled character-wise over `String.data`
  (`to_lowercase` on the ASCII range, `split`, `starts_with`, ...), matching
  the byte-oriented source operations on the ASCII data they process.
* `HashMap`s are modelled as association lists in insertion order; every
  property proved about them is insertion-order independent.
-/

namespace TaskManager

/-- `2 ^ 64`, the modulus of Rust `u64` arithmetic. -/
def U64MOD : Nat := 18446744073709551616

/-- Wrapping `u64` addition (release-build semantics of `+`). -/
def u64add (a b : Nat) : Nat := (a + b) % U64MOD

/-- Wrapping `u64` multiplication (release-build semantics of `*`). -/
def u64mul (a b : Nat) : Nat := (a * b) % U64MOD

/-- Wrapping `u64` subtraction (release-build semantics of `-`);
arguments are `u64` values, i.e. below `U64MOD`. -/
def u64wsub (a b : Nat) : Nat := (a + U64MOD - b % U64MOD) % U64MOD

theorem u64add_eq (a b : Nat) (h : a + b < U64MOD) : u64add a b = a + b :=
  Nat.mod_eq_of_lt h

theorem u64wsub_eq (a b : Nat) (hba : b ≤ a) (ha : a < U64MOD) :
    u64wsub a b = a - b := by
  unfold u64wsub
  rw [Nat.mod_eq_of_lt (Nat.lt_of_le_of_lt hba ha)]
  have h1 : a + U64MOD - b = (a - b) + U64MOD := by omega
  rw [h1, Nat.add_mod_right, Nat.mod_eq_of_lt (by omega)]

/-! ### String helpers (character-wise models of the Rust string operations) -/

/-- Model of Rust `str::to_lowercase` on the ASCII data the grouping code
handles (`Char.toLower` lowers exactly the ASCII uppercase range). -/
def lowerStr (s : String) : String := (s.data.map Char.toLower).asString

/-- Split a character list at every occurrence of `sep` (Rust `str::split(sep)`:
the result always has at least one, possibly empty, piece). -/
def splitCharList (sep : Char) : List Char → List (List Char)
  | [] => [[]]
  | c :: rest =>
    if c = sep then
      [] :: splitCharList sep rest
    else
      match splitCharList sep rest with
      | [] => [[c]]
      | piece :: pieces => (c :: piece) :: pieces

/-- Rust `s.split(sep)` as a list of strings. -/
def splitStr (sep : Char) (s : String) : List String :=
  (splitCharList sep s.data).map List.asString

/-- Rust `s.rsplit('/').next()`: the piece after the last `'/'`.  `rsplit` of
any string yields at least one piece, so this is never `none`. -/
def rsplitSlashNext (s : String) : Option String :=
  (splitStr '/' s).getLast?

/-- Rust `str::contains(c)` for a single-character pattern. -/
def containsChar (s : String) (c : Char) : Bool := s.data.contains c

/-- Rust `str::starts_with(p)` for a string pattern. -/
def startsWithStr (s p : String) : Bool := p.data.isPrefixOf s.data

/-- Rust `str::ends_with(p)` for a string pattern. -/
def endsWithStr (s p : String) : Bool := p.data.isSuffixOf s.data

/-- Rust `str::split_whitespace`: split on whitespace, dropping empty pieces. -/
def splitWhitespace (s : String) : List String :=
  ((splitCharList ' ' s.data).filter (· ≠ [])).map List.asString

/-- Rust `str::trim_end_matches(c)`: repeatedly strip the trailing character. -/
def trimEndChar (s : String) (c : Char) : String :=
  ((s.data.reverse.dropWhile (· = c)).reverse).asString

/-! ### `ProcessInfo` (src/model/process_info.rs) -/

/-- One process's point-in-time record (`struct ProcessInfo`).  Fields the
studied claims never touch (`state`, `nice`, `uid`, `user`, `container_type`,
`start_time`, `memory_percent` is kept since `collect` computes it) are kept
where a claim's computation writes them. -/
structure ProcessInfo where
  pid : Int
  ppid : Int
  name : String
  display_name : String
  command : String
  exe_path : String
  cpu_percent : ℚ
  memory_bytes : Nat
  memory_percent : ℚ
  vram_bytes : Nat
  disk_read_bytes : Nat
  disk_write_bytes : Nat
  disk_read_rate : ℚ
  disk_write_rate : ℚ
  threads : Nat
  total_cpu_time : Nat
  prev_cpu_time : Nat
  prev_disk_read : Nat
  prev_disk_write : Nat
  deriving DecidableEq, Repr

/-- `Default for ProcessInfo` (src/model/process_info.rs). -/
def ProcessInfo.defaultInfo : ProcessInfo where
  pid := 0
  ppid := 0
  name := ""
  display_name := ""
  command := ""
  exe_path := ""
  cpu_percent := 0
  memory_bytes := 0
  memory_percent := 0
  vram_bytes := 0
  disk_read_bytes := 0
  disk_write_bytes := 0
  disk_read_rate := 0
  disk_write_rate := 0
  threads := 0
  total_cpu_time := 0
  prev_cpu_time := 0
  prev_disk_read := 0
  prev_disk_write := 0

instance : Inhabited ProcessInfo := ⟨ProcessInfo.defaultInfo⟩

/-- First value in an association list with the given key
(model of `HashMap::get` / `Vec::iter().find`). -/
def assocFind {α β : Type} [DecidableEq α] (l : List (α × β)) (k : α) : Option β :=
  match l with
  | [] => none
  | (k', v) :: rest => if k' = k then some v else assocFind rest k

/-! ### Display-name resolution (src/backend/process.rs, lines 169-246) -/

/-- `is_interpreter` (src/backend/process.rs): executable basenames recognized
as script interpreters. -/
def is_interpreter (basename : String) : Bool :=
  let name := lowerStr basename
  name = "bash" || name = "sh" || name = "zsh" || name = "fish" || name = "dash"
    || name = "python" || name = "python3" || name = "python2"
    || name = "perl" || name = "ruby" || name = "node" || name = "nodejs"
    || name = "java" || name = "javaw" || name = "dotnet" || name = "mono"

/-- Normalized path components as in Rust `Path::components`: split on `'/'`,
dropping empty pieces and `"."`. -/
def pathComps (p : String) : List String :=
  (splitStr '/' p).filter (fun s => s ≠ "" && s ≠ ".")

/-- Rust `Path::file_name` over a component list: the last component, `none`
when there is none or it is `".."`. -/
def compsFileName (cs : List String) : Option String :=
  match cs.getLast? with
  | some s => if s = ".." then none else some s
  | none => none

/-- Rust `Path::file_stem` applied to a file name: the part before the last
`'.'`, unless the only `'.'` is the leading character. -/
def fileStemOfName (f : String) : String :=
  let cs := f.data
  match cs.reverse.findIdx? (· = '.') with
  | some r =>
    let i := cs.length - 1 - r
    if 0 < i then (cs.take i).asString else f
  | none => f

/-- Rust `path.file_stem()` for a path string. -/
def pathFileStem (p : String) : Option String :=
  (compsFileName (pathComps p)).map fileStemOfName

/-- Rust `path.parent()` as a component list: `none` exactly when the path is
empty or consists only of a root (only `'/'` characters). -/
def pathParent (p : String) : Option (List String) :=
  if p.data.all (fun c => c = '/') then none
  else some ((pathComps p).dropLast)

/-- The generic entry-point stems of `script_display_name`
(src/backend/process.rs line 235). -/
def genericStems : List String :=
  ["main", "app", "run", "__main__", "manage", "server", "index", "cli"]

/-- Body of `script_display_name` for the selected path-like argument
(src/backend/process.rs lines 230-244): the file stem, or the parent
directory's name when the stem is a generic entry-point token.  A failing
`file_stem()?` or `parent.file_name()?` aborts with `none`. -/
def scriptNameOfArg (arg : String) : Option String :=
  match pathFileStem arg with
  | none => none
  | some stem =>
    if stem ∈ genericStems then
      match pathParent arg with
      | none => some stem
      | some pcs =>
        match compsFileName pcs with
        | none => none
        | some dir => if dir ≠ "" then some dir else some stem
    else some stem

/-- The argument scan of `script_display_name` (src/backend/process.rs lines
227-245): first non-flag argument that contains `'/'` or ends in a script
extension. -/
def scriptNameLoop : List String → Option String
  | [] => none
  | arg :: rest =>
    if startsWithStr arg "-" then scriptNameLoop rest
    else if containsChar arg '/' || endsWithStr arg ".py" || endsWithStr arg ".sh"
        || endsWithStr arg ".rb" || endsWithStr arg ".pl" || endsWithStr arg ".js" then
      scriptNameOfArg arg
    else scriptNameLoop rest

/-- `script_display_name` (src/backend/process.rs lines 219-246). -/
def script_display_name (cmdline : String) : Option String :=
  scriptNameLoop ((splitWhitespace cmdline).drop 1)

/-- `resolve_display_name` (src/backend/process.rs lines 169-203).  Returns
the new `display_name`; priority 4 keeps the incoming `display_name` (which
`read_process` initialised to the comm name). -/
def resolve_display_name (info : ProcessInfo) (window_titles : List (Int × String))
    (desktop_names : List (String × String)) : String :=
  let fallback :=
    let exe_basename := (rsplitSlashNext info.exe_path).getD info.name
    match assocFind desktop_names exe_basename with
    | some d => d
    | none =>
      match assocFind desktop_names (lowerStr exe_basename) with
      | some d => d
      | none =>
        if is_interpreter exe_basename then
          match script_display_name info.command with
          | some n => n
          | none => info.display_name
        else info.display_name
  match assocFind window_titles info.pid with
  | some title => if title ≠ "" then title else fallback
  | none => fallback

example : script_display_name "python /home/user/Programs/ComfyUI/main.py --port 8188"
    = some "ComfyUI" := by decide
example : script_display_name "python3 -u script.py" = some "script" := by decide
example : script_display_name "bash -c ls" = none := by decide
example : script_display_name "python main.py" = none := by decide
example : is_interpreter "Python3" = true := by decide
example : is_interpreter "firefox" = false := by decide

/-! ### Process collector (src/backend/process.rs, `ProcessCollector::collect`) -/

/-- `HashMap::insert`: replace the value at the key or append a new binding. -/
def assocInsert {α β : Type} [DecidableEq α] (l : List (α × β)) (k : α) (v : β) :
    List (α × β) :=
  match l with
  | [] => [(k, v)]
  | (k', v') :: rest => if k' = k then (k, v) :: rest else (k', v') :: assocInsert rest k v

/-- Collector-owned state of `ProcessCollector`:
`prev_processes : pid -> (cpu_time, disk_read, disk_write)`, the previous
cycle's total CPU tick reading, and the cached total memory. -/
structure PColState where
  prev_processes : List (Int × (Nat × Nat × Nat))
  prev_total_cpu : Nat
  total_memory : Nat
  deriving DecidableEq, Repr

/-- The per-process body of `ProcessCollector::collect` (src/backend/process.rs
lines 46-81): CPU percent, memory percent, disk I/O rates, VRAM attachment and
display-name resolution for one `read_process` record, plus the
`prev_processes` insertion. -/
def processStep (delta_total num_cores total_memory : Nat)
    (gpu_vram : List (Int × Nat)) (desktop_names : List (String × String))
    (window_titles : List (Int × String))
    (prevMap : List (Int × (Nat × Nat × Nat))) (raw : ProcessInfo) :
    ProcessInfo × List (Int × (Nat × Nat × Nat)) :=
  let prev := assocFind prevMap raw.pid
  let prev_cpu := (prev.map (fun t => t.1)).getD 0
  let cpu_delta := raw.total_cpu_time - prev_cpu
  let prev_dr := (prev.map (fun t => t.2.1)).getD raw.disk_read_bytes
  let prev_dw := (prev.map (fun t => t.2.2)).getD raw.disk_write_bytes
  let info : ProcessInfo := { raw with
    cpu_percent :=
      if 0 < delta_total then
        ((cpu_delta : ℚ) / (delta_total : ℚ)) * 100 * (num_cores : ℚ)
      else 0
    prev_cpu_time := prev_cpu
    memory_percent :=
      if 0 < total_memory then
        ((raw.memory_bytes : ℚ) / (total_memory : ℚ)) * 100
      else 0
    disk_read_rate := ((raw.disk_read_bytes - prev_dr : Nat) : ℚ)
    disk_write_rate := ((raw.disk_write_bytes - prev_dw : Nat) : ℚ)
    prev_disk_read := prev_dr
    prev_disk_write := prev_dw
    vram_bytes :=
      match assocFind gpu_vram raw.pid with
      | some v => v
      | none => raw.vram_bytes }
  let info := { info with
    display_name := resolve_display_name info window_titles desktop_names }
  (info, assocInsert prevMap raw.pid
    (raw.total_cpu_time, raw.disk_read_bytes, raw.disk_write_bytes))

/-- The `for entry in proc_entries` loop of `ProcessCollector::collect`,
threading `prev_processes` through the per-process steps. -/
def processLoop (delta_total num_cores total_memory : Nat)
    (gpu_vram : List (Int × Nat)) (desktop_names : List (String × String))
    (window_titles : List (Int × String)) :
    List (Int × (Nat × Nat × Nat)) → List ProcessInfo →
    List ProcessInfo × List (Int × (Nat × Nat × Nat))
  | m, [] => ([], m)
  | m, raw :: rest =>
    let s := processStep delta_total num_cores total_memory gpu_vram
      desktop_names window_titles m raw
    let r := processLoop delta_total num_cores total_memory gpu_vram
      desktop_names window_titles s.2 rest
    (s.1 :: r.1, r.2)

/-- `ProcessCollector::collect` (src/backend/process.rs lines 21-98) with
`read_process` parsing abstracted to its output records `raws` and the
`/proc/stat` total-tick reading passed as `total_cpu`:
computes deltas against the collector state, updates `prev_total_cpu`,
and prunes `prev_processes` to the live pids. -/
def processCollect (st : PColState) (total_cpu num_cores : Nat)
    (gpu_vram : List (Int × Nat)) (desktop_names : List (String × String))
    (window_titles : List (Int × String)) (raws : List ProcessInfo) :
    List ProcessInfo × PColState :=
  let delta_total := total_cpu - st.prev_total_cpu
  let r := processLoop delta_total num_cores st.total_memory gpu_vram
    desktop_names window_titles st.prev_processes raws
  let live := r.1.map (·.pid)
  (r.1, { st with
    prev_processes := r.2.filter (fun e => live.contains e.1)
    prev_total_cpu := total_cpu })

/-! ### Disk collector (src/backend/disk.rs) -/

/-- One `/proc/diskstats` line reduced to the fields `collect` reads
(`parts[2]`, `parts[5]`, `parts[9]`; short or malformed numeric fields parse
to 0 upstream and lines with fewer than 14 fields are skipped). -/
structure DiskLine where
  name : String
  read_sectors : Nat
  write_sectors : Nat
  deriving DecidableEq, Repr

/-- `DiskDevice` (src/model): per-device output record. -/
structure DiskDevice where
  name : String
  read_bytes_sec : ℚ
  write_bytes_sec : ℚ
  total_read : Nat
  total_write : Nat
  deriving DecidableEq, Repr

/-- The whole-disk name filter of `DiskCollector::collect`. -/
def isDiskName (name : String) : Bool :=
  (startsWithStr name "sd" && name.data.length == 3)
    || (startsWithStr name "nvme" && containsChar name 'n' && !containsChar name 'p')
    || (startsWithStr name "vd" && name.data.length == 3)

/-- The device loop of `DiskCollector::collect` (src/backend/disk.rs lines
19-59): sector counts ×512, delta against the previous cycle's entry for the
same device name (rate 0 when absent), collecting the current counters. -/
def diskLoop (prev_stats : List (String × Nat × Nat)) (elapsed : ℚ) :
    List DiskLine → List DiskDevice × List (String × Nat × Nat)
  | [] => ([], [])
  | line :: rest =>
    if isDiskName line.name then
      let read_bytes := u64mul line.read_sectors 512
      let write_bytes := u64mul line.write_sectors 512
      let rates : ℚ × ℚ :=
        match assocFind prev_stats line.name with
        | some pv =>
          (((read_bytes - pv.1 : Nat) : ℚ) / elapsed,
           ((write_bytes - pv.2 : Nat) : ℚ) / elapsed)
        | none => (0, 0)
      let r := diskLoop prev_stats elapsed rest
      (⟨line.name, rates.1, rates.2, read_bytes, write_bytes⟩ :: r.1,
       (line.name, read_bytes, write_bytes) :: r.2)
    else diskLoop prev_stats elapsed rest

/-- `DiskCollector::collect` (src/backend/disk.rs): elapsed wall time is
clamped below at 1 ms; returns the device list and the new `prev_stats`. -/
def diskCollect (prev_stats : List (String × Nat × Nat)) (elapsedRaw : ℚ)
    (lines : List DiskLine) : List DiskDevice × List (String × Nat × Nat) :=
  diskLoop prev_stats (max elapsedRaw (1 / 1000)) lines

/-! ### Network collector (src/backend/network.rs) -/

/-- One `/proc/net/dev` data line reduced to the fields `collect` reads
(`parts[0]` with trailing colons still attached, `parts[1]`, `parts[9]`). -/
structure NetLine where
  iface_raw : String
  rx_bytes : Nat
  tx_bytes : Nat
  deriving DecidableEq, Repr

/-- `NetworkInterface` (src/model): per-interface output record. -/
structure NetworkInterface where
  name : String
  rx_bytes_sec : ℚ
  tx_bytes_sec : ℚ
  total_rx : Nat
  total_tx : Nat
  deriving DecidableEq, Repr

/-- The interface loop of `NetworkCollector::collect` (src/backend/network.rs
lines 19-54): strip trailing `':'`, skip the loopback interface, delta
against the previous cycle's entry for the same name (rate 0 when absent). -/
def netLoop (prev_stats : List (String × Nat × Nat)) (elapsed : ℚ) :
    List NetLine → List NetworkInterface × List (String × Nat × Nat)
  | [] => ([], [])
  | line :: rest =>
    let name := trimEndChar line.iface_raw ':'
    if name = "lo" then netLoop prev_stats elapsed rest
    else
      let rates : ℚ × ℚ :=
        match assocFind prev_stats name with
        | some pv =>
          (((line.rx_bytes - pv.1 : Nat) : ℚ) / elapsed,
           ((line.tx_bytes - pv.2 : Nat) : ℚ) / elapsed)
        | none => (0, 0)
      let r := netLoop prev_stats elapsed rest
      (⟨name, rates.1, rates.2, line.rx_bytes, line.tx_bytes⟩ :: r.1,
       (name, line.rx_bytes, line.tx_bytes) :: r.2)

/-- `NetworkCollector::collect` (src/backend/network.rs): elapsed wall time
clamped below at 1 ms. -/
def netCollect (prev_stats : List (String × Nat × Nat)) (elapsedRaw : ℚ)
    (lines : List NetLine) : List NetworkInterface × List (String × Nat × Nat) :=
  netLoop prev_stats (max elapsedRaw (1 / 1000)) lines

/-! ### CPU collector (src/backend/cpu.rs, `CpuCollector::collect`) -/

/-- The seven tick fields a `cpu*` line of `/proc/stat` is parsed into. -/
structure CpuTicks where
  user : Nat
  nice : Nat
  system : Nat
  idle : Nat
  iowait : Nat
  irq : Nat
  softirq : Nat
  deriving DecidableEq, Repr

/-- `total = user + nice + system + idle + iowait + irq + softirq` and
`idle_total = idle + iowait` (u64 sums, src/backend/cpu.rs lines 53-54). -/
def cpuLineTotals (t : CpuTicks) : Nat × Nat :=
  (u64add (u64add (u64add (u64add (u64add (u64add t.user t.nice) t.system)
      t.idle) t.iowait) t.irq) t.softirq,
   u64add t.idle t.iowait)

/-- The per-line percent computation of `CpuCollector::collect`
(src/backend/cpu.rs lines 56-69): saturating deltas against the stored
previous totals, `percent = (dtotal - didle) / dtotal * 100` (a plain — in
release builds wrapping — u64 subtraction) guarded by `dtotal > 0`.
Returns `(percent, new prev_total, new prev_idle)`. -/
def cpuLinePercent (prev_total prev_idle : Nat) (t : CpuTicks) : ℚ × Nat × Nat :=
  let tot := cpuLineTotals t
  let dtotal := tot.1 - prev_total
  let didle := tot.2 - prev_idle
  let percent : ℚ :=
    if 0 < dtotal then ((u64wsub dtotal didle : Nat) : ℚ) / (dtotal : ℚ) * 100
    else 0
  (percent, tot.1, tot.2)

/-! ### Battery collector (src/backend/battery.rs) -/

/-- The sysfs attribute files `BatteryCollector::collect` reads, each `none`
when missing/unreadable (`read_sysfs_u64` / `read_sysfs_string`); string
values are already trimmed. -/
structure BatSysfs where
  energy_now_file : Option Nat
  charge_now : Option Nat
  voltage_now : Option Nat
  energy_full_file : Option Nat
  charge_full : Option Nat
  capacity : Option Nat
  status_file : Option String
  power_now_file : Option Nat
  current_now : Option Nat
  ac_online : Option Nat
  deriving DecidableEq, Repr

/-- `BatteryInfo` (src/backend/battery.rs). -/
structure BatteryInfo where
  available : Bool
  percent : ℚ
  status : String
  power_watts : ℚ
  time_remaining_secs : Nat
  ac_connected : Bool
  energy_now : Nat
  energy_full : Nat
  deriving DecidableEq, Repr

/-- `Default for BatteryInfo`. -/
def BatteryInfo.defaultInfo : BatteryInfo :=
  ⟨false, 0, "", 0, 0, false, 0, 0⟩

/-- `BatteryCollector::collect` (src/backend/battery.rs lines 36-112) as a
function of the sysfs reading; `hasBattery` / `hasAc` model whether
`battery_path` / `ac_path` were found at startup.  The charging-deficit
`energy_full - energy_now` is the source's plain u64 subtraction, and the
final `as u64` cast of the f64 seconds is a saturating truncation. -/
def batteryCollect (hasBattery hasAc : Bool) (r : BatSysfs) : BatteryInfo :=
  if !hasBattery then BatteryInfo.defaultInfo
  else
    let energy_now : Nat :=
      (match r.energy_now_file with
       | some e => some e
       | none =>
         match r.charge_now, r.voltage_now with
         | some charge, some voltage => some (u64mul charge voltage / 1000000)
         | _, _ => none).getD 0
    let energy_full : Nat :=
      (match r.energy_full_file with
       | some e => some e
       | none =>
         match r.charge_full, r.voltage_now with
         | some charge, some voltage => some (u64mul charge voltage / 1000000)
         | _, _ => none).getD 0
    let percent : ℚ :=
      match r.capacity with
      | some c => (c : ℚ)
      | none =>
        if 0 < energy_full then ((energy_now : ℚ) / (energy_full : ℚ)) * 100 else 0
    let status := r.status_file.getD "Unknown"
    let power_now : Nat :=
      (match r.power_now_file with
       | some p => some p
       | none =>
         match r.current_now, r.voltage_now with
         | some current, some voltage => some (u64mul current voltage / 1000000)
         | _, _ => none).getD 0
    let power_watts : ℚ := (power_now : ℚ) / 1000000
    let time_remaining_secs :=
      if 0 < power_watts then
        let energy_wh : ℚ :=
          if status = "Charging" then ((u64wsub energy_full energy_now : Nat) : ℚ) / 1000000
          else (energy_now : ℚ) / 1000000
        min (Nat.floor (energy_wh / power_watts * 3600)) (U64MOD - 1)
      else 0
    let ac_connected :=
      if hasAc then
        match r.ac_online with
        | some v => decide (v = 1)
        | none => false
      else status = "Charging" || status = "Full"
    ⟨true, percent, status, power_watts, time_remaining_secs, ac_connected,
     energy_now, energy_full⟩

/-! ### `AppGroup` (src/model/app_group.rs) -/

/-- One application group: a leader plus children with pre-summed aggregates.
The u64 aggregates (`total_memory`, `total_vram`) accumulate with wrapping
u64 addition. -/
structure AppGroup where
  leader : ProcessInfo
  children : List ProcessInfo
  total_cpu : ℚ
  total_memory : Nat
  total_vram : Nat
  total_disk_read_rate : ℚ
  total_disk_write_rate : ℚ
  deriving DecidableEq, Repr

/-- `AppGroup::new` (src/model/app_group.rs lines 15-30). -/
def AppGroup.new (leader : ProcessInfo) : AppGroup :=
  ⟨leader, [], leader.cpu_percent, leader.memory_bytes, leader.vram_bytes,
   leader.disk_read_rate, leader.disk_write_rate⟩

/-- `AppGroup::add_child` (src/model/app_group.rs lines 32-39). -/
def AppGroup.add_child (g : AppGroup) (child : ProcessInfo) : AppGroup :=
  { g with
    total_cpu := g.total_cpu + child.cpu_percent
    total_memory := u64add g.total_memory child.memory_bytes
    total_vram := u64add g.total_vram child.vram_bytes
    total_disk_read_rate := g.total_disk_read_rate + child.disk_read_rate
    total_disk_write_rate := g.total_disk_write_rate + child.disk_write_rate
    children := g.children ++ [child] }

/-- `AppGroup::process_count` (src/model/app_group.rs lines 41-43). -/
def AppGroup.process_count (g : AppGroup) : Nat := 1 + g.children.length

/-! ### `build_app_groups` (src/backend/collector.rs lines 119-229) -/

/-- `is_kernel_thread` (src/backend/collector.rs lines 119-122). -/
def is_kernel_thread (p : ProcessInfo) : Bool :=
  p.pid = 2 || p.ppid = 2 || (p.ppid = 0 && p.pid ≠ 1)

/-- The grouping key: lower-cased exe path, falling back to the lower-cased
process name when the exe path is empty (collector.rs lines 132-137). -/
def groupKey (p : ProcessInfo) : String :=
  if p.exe_path ≠ "" then lowerStr p.exe_path else lowerStr p.name

/-- `HashMap::entry(k).or_default().push(p)`: append to the entry's vector,
creating it when absent (entries kept in insertion order). -/
def insertGrouped (m : List (String × List ProcessInfo)) (k : String)
    (p : ProcessInfo) : List (String × List ProcessInfo) :=
  match m with
  | [] => [(k, [p])]
  | (k', ps) :: rest =>
    if k' = k then (k', ps ++ [p]) :: rest else (k', ps) :: insertGrouped rest k p

/-- The first loop of `build_app_groups` (collector.rs lines 128-141):
partition into kernel threads and the exe-path keyed map. -/
def partitionKernel (ps : List ProcessInfo) :
    List ProcessInfo × List (String × List ProcessInfo) :=
  ps.foldl
    (fun acc p =>
      if is_kernel_thread p then (acc.1 ++ [p], acc.2)
      else (acc.1, insertGrouped acc.2 (groupKey p) p))
    ([], [])

/-- The synthetic "Kernel" leader (collector.rs lines 147-158): default record
with pid 0, accumulating the kernel threads' CPU, memory and a thread count. -/
def kernelLeader (kps : List ProcessInfo) : ProcessInfo :=
  kps.foldl
    (fun li kp =>
      { li with
        cpu_percent := li.cpu_percent + kp.cpu_percent
        memory_bytes := u64add li.memory_bytes kp.memory_bytes
        threads := u64add li.threads 1 })
    { ProcessInfo.defaultInfo with pid := 0, display_name := "Kernel", name := "kernel" }

/-- The "Kernel" group (collector.rs lines 146-163): the synthetic leader with
every kernel thread added again as a child. -/
def kernelGroup (kps : List ProcessInfo) : AppGroup :=
  kps.foldl (fun g kp => g.add_child kp) (AppGroup.new (kernelLeader kps))

/-- The singleton / multi split (collector.rs lines 168-178): entries with
exactly one process become `(key, proc)` singletons, the rest stay whole. -/
def splitSingle :
    List (String × List ProcessInfo) →
    List (String × ProcessInfo) × List (List ProcessInfo)
  | [] => ([], [])
  | (k, ps) :: rest =>
    let r := splitSingle rest
    match ps with
    | [p] => ((k, p) :: r.1, r.2)
    | _ => (r.1, ps :: r.2)

/-- `name.find(|c| c == '_' || c == '-').map(|i| &name[..i])`
(collector.rs lines 185-187). -/
def pfxOf (name : String) : Option String :=
  match name.data.findIdx? (fun c => c = '_' || c = '-') with
  | some i => some ((name.data.take i).asString)
  | none => none

/-- The prefix-bucketing loop over singletons (collector.rs lines 181-193):
names with a `_`/`-` delimiter go into a lower-cased prefix bucket, the rest
stay unbucketed. -/
def splitPfx (ss : List (String × ProcessInfo)) :
    List (String × List ProcessInfo) × List ProcessInfo :=
  ss.foldl
    (fun acc kp =>
      match pfxOf kp.2.name with
      | some pfx => (insertGrouped acc.1 (lowerStr pfx) kp.2, acc.2)
      | none => (acc.1, acc.2 ++ [kp.2]))
    ([], [])

/-- The prefix-merge decision (collector.rs lines 196-203): buckets of two or
more processes become groups, the rest rejoin the unbucketed singletons. -/
def mergePfx (bp : List (String × List ProcessInfo)) (np : List ProcessInfo) :
    List (List ProcessInfo) × List ProcessInfo :=
  bp.foldl
    (fun acc e =>
      if 2 ≤ e.2.length then (acc.1 ++ [e.2], acc.2) else (acc.1, acc.2 ++ e.2))
    ([], np)

/-- Leader preference key (collector.rs lines 211-214): 0 when the process
carries a distinct non-empty display name, tie-broken by pid. -/
def leaderKey (p : ProcessInfo) : Nat × Int :=
  (if p.display_name ≠ p.name ∧ p.display_name ≠ "" then 0 else 1, p.pid)

/-- Strict lexicographic order on leader keys. -/
def leaderKeyLt (a b : Nat × Int) : Bool :=
  a.1 < b.1 || (a.1 = b.1 && a.2 < b.2)

/-- `min_by_key` over the enumerated processes (collector.rs lines 210-216):
index of the first process with minimal leader key (0 for an empty list,
matching `unwrap_or(0)`). -/
def pickLeaderIdx (ps : List ProcessInfo) : Nat :=
  ((ps.enum.foldl
      (fun best ip =>
        match best with
        | none => some ip
        | some b => if leaderKeyLt (leaderKey ip.2) (leaderKey b.2) then some ip else some b)
      none).map Prod.fst).getD 0

/-- The child-adding loop of the group builder (collector.rs lines 219-223):
add every process except the one at the leader index. -/
def addChildrenExcept (g : AppGroup) (li : Nat) : List ProcessInfo → Nat → AppGroup
  | [], _ => g
  | p :: rest, i =>
    if i = li then addChildrenExcept g li rest (i + 1)
    else addChildrenExcept (g.add_child p) li rest (i + 1)

/-- Build one `AppGroup` from a grouped process list (collector.rs lines
209-224): the leader is the `pickLeaderIdx` process; every other process is a
child. -/
def mkGroup (procs : List ProcessInfo) : AppGroup :=
  let li := pickLeaderIdx procs
  addChildrenExcept (AppGroup.new (procs.getD li ProcessInfo.defaultInfo)) li procs 0

/-- Stable descending insertion by `total_cpu` (model of the final
`sort_by(partial_cmp)` with descending comparator; `partial_cmp` on these
rationals is total). -/
def insertByCpu (g : AppGroup) : List AppGroup → List AppGroup
  | [] => [g]
  | h :: t => if g.total_cpu < h.total_cpu then h :: insertByCpu g t else g :: h :: t

/-- Stable sort of the groups, descending by `total_cpu`
(collector.rs line 227). -/
def sortByCpu : List AppGroup → List AppGroup
  | [] => []
  | g :: rest => insertByCpu g (sortByCpu rest)

/-- `build_app_groups` (src/backend/collector.rs lines 124-229). -/
def build_app_groups (ps : List ProcessInfo) : List AppGroup :=
  let pk := partitionKernel ps
  let base : List AppGroup := if pk.1 ≠ [] then [kernelGroup pk.1] else []
  let sm := splitSingle pk.2
  let pf := splitPfx sm.1
  let mp := mergePfx pf.1 pf.2
  let multi := sm.2 ++ mp.1 ++ mp.2.map (fun p => [p])
  sortByCpu (base ++ multi.map mkGroup)

/-! ### History tracker (src/backend/history.rs) -/

/-- `MAX_SAMPLES` (src/backend/history.rs line 3): 5 minutes at 1 Hz. -/
def MAX_SAMPLES : Nat := 300

/-- `AppHistory` (src/backend/history.rs): per-display-name rolling buffers,
front of the list = oldest sample. -/
structure AppHistory where
  display_name : String
  cpu_samples : List ℚ
  mem_samples : List ℚ
  deriving DecidableEq, Repr

/-- `AppHistory::new`. -/
def AppHistory.newH (name : String) : AppHistory := ⟨name, [], []⟩

/-- `AppHistory::push` (src/backend/history.rs lines 21-30): append one
sample per series; drop the oldest when a series exceeds `MAX_SAMPLES`. -/
def AppHistory.push (h : AppHistory) (cpu mem : ℚ) : AppHistory :=
  let cs := h.cpu_samples ++ [cpu]
  let ms := h.mem_samples ++ [mem]
  ⟨h.display_name,
   if MAX_SAMPLES < cs.length then cs.tail else cs,
   if MAX_SAMPLES < ms.length then ms.tail else ms⟩

/-- `histories.entry(name).or_insert_with(AppHistory::new)` followed by a
push: update the entry in place, appending a fresh one when absent. -/
def upsertHistory (hs : List (String × AppHistory)) (name : String)
    (cpu mem : ℚ) : List (String × AppHistory) :=
  match hs with
  | [] => [(name, (AppHistory.newH name).push cpu mem)]
  | (n, h) :: rest =>
    if n = name then (n, h.push cpu mem) :: rest
    else (n, h) :: upsertHistory rest name cpu mem

/-- The display names of the current app groups, as collected into `seen`
(src/backend/history.rs lines 49-53). -/
def seenNames (groups : List AppGroup) : List String :=
  groups.map (fun g => g.leader.display_name)

/-- The first loop of `AppHistoryTracker::update` (lines 49-61): push each
group's `(total_cpu, total_memory as f64)` sample under its display name. -/
def historySeenLoop (hs : List (String × AppHistory)) (groups : List AppGroup) :
    List (String × AppHistory) :=
  groups.foldl
    (fun acc g =>
      upsertHistory acc g.leader.display_name g.total_cpu (g.total_memory : ℚ))
    hs

/-- The `retain` closure (lines 63-72): keep seen entries unchanged; push a
zero sample into absent entries and keep them only while some retained sample
is positive. -/
def retainHistory (seen : List String) (e : String × AppHistory) :
    Option (String × AppHistory) :=
  if e.1 ∈ seen then some e
  else
    let h := e.2.push 0 0
    if h.cpu_samples.any (fun v => decide (0 < v))
        || h.mem_samples.any (fun v => decide (0 < v)) then
      some (e.1, h)
    else none

/-- `AppHistoryTracker::update` (src/backend/history.rs lines 46-73). -/
def historyUpdate (hs : List (String × AppHistory)) (groups : List AppGroup) :
    List (String × AppHistory) :=
  (historySeenLoop hs groups).filterMap (retainHistory (seenNames groups))

/-! ### Group membership bookkeeping -/

/-- A group's member processes: its leader followed by its children. -/
def groupMembers (g : AppGroup) : List ProcessInfo := g.leader :: g.children

/-- All members of a list of groups, in order. -/
def allMembers (gs : List AppGroup) : List ProcessInfo :=
  (gs.map groupMembers).flatten

/-- The concatenated value lists of a keyed process map. -/
def valsFlat (m : List (String × List ProcessInfo)) : List ProcessInfo :=
  (m.map Prod.snd).flatten

example : lowerStr "/usr/bin/FireFox" = "/usr/bin/firefox" := by decide

/-! ### Generic list and association-list lemmas -/

theorem assocFind_assocInsert {α β : Type} [DecidableEq α]
    (l : List (α × β)) (k k' : α) (v : β) :
    assocFind (assocInsert l k v) k' = if k = k' then some v else assocFind l k' := by
  induction l with
  | nil => simp [assocInsert, assocFind]
  | cons e rest ih =>
    obtain ⟨ek, ev⟩ := e
    by_cases hek : ek = k
    · subst hek
      simp only [assocInsert, if_pos rfl, assocFind]
      by_cases hkk : ek = k' <;> simp [hkk]
    · simp only [assocInsert, if_neg hek, assocFind]
      by_cases hkk : ek = k'
      · subst hkk
        have : ¬ k = ek := fun h => hek h.symm
        simp [this]
      · simp [hkk, ih]

theorem assocFind_eq_some_of_mem {α β : Type} [DecidableEq α]
    (l : List (α × β)) (k : α) (v : β)
    (hm : (k, v) ∈ l) (hnd : (l.map Prod.fst).Nodup) :
    assocFind l k = some v := by
  induction l with
  | nil => simp at hm
  | cons e rest ih =>
    obtain ⟨ek, ev⟩ := e
    simp only [List.map_cons, List.nodup_cons] at hnd
    rcases List.mem_cons.mp hm with h | h
    · cases h
      simp [assocFind]
    · have hne : ek ≠ k := by
        intro he
        exact hnd.1 (he ▸ (List.mem_map.mpr ⟨(k, v), h, rfl⟩))
      simp [assocFind, hne, ih h hnd.2]

theorem perm_get_cons_eraseIdx {α : Type} :
    ∀ (l : List α) (i : Nat) (h : i < l.length),
      (l.get ⟨i, h⟩ :: l.eraseIdx i).Perm l
  | a :: rest, 0, _ => by simp [List.eraseIdx]
  | a :: rest, i + 1, h => by
    have hi : i < rest.length := by simpa using h
    have ih := perm_get_cons_eraseIdx rest i hi
    have h1 : ((a :: rest).get ⟨i + 1, h⟩ :: (a :: rest).eraseIdx (i + 1))
        = (rest.get ⟨i, hi⟩ :: a :: rest.eraseIdx i) := by
      simp [List.eraseIdx]
    rw [h1]
    exact ((List.Perm.swap a _ _).trans (ih.cons a))

theorem perm_flatten_of_perm {α : Type} {l₁ l₂ : List (List α)}
    (h : l₁.Perm l₂) : l₁.flatten.Perm l₂.flatten := by
  induction h with
  | nil => exact List.Perm.refl _
  | cons x _ ih => simpa using ih.append_left x
  | swap x y t =>
    simp only [List.flatten_cons]
    exact List.perm_append_comm_assoc y x t.flatten
  | trans _ _ ih₁ ih₂ => exact ih₁.trans ih₂

theorem flatten_map_singleton {α : Type} (l : List α) :
    (l.map (fun p => [p])).flatten = l := by
  induction l with
  | nil => rfl
  | cons a rest ih => simp [ih]

/-! ### `AppGroup` accumulation lemmas -/

theorem add_child_leader (g : AppGroup) (c : ProcessInfo) :
    (g.add_child c).leader = g.leader := rfl

theorem add_child_children (g : AppGroup) (c : ProcessInfo) :
    (g.add_child c).children = g.children ++ [c] := rfl

theorem foldl_add_child_leader (l : List ProcessInfo) (g : AppGroup) :
    (l.foldl (fun g kp => g.add_child kp) g).leader = g.leader := by
  induction l generalizing g with
  | nil => rfl
  | cons a rest ih => simpa using ih (g.add_child a)

theorem foldl_add_child_children (l : List ProcessInfo) (g : AppGroup) :
    (l.foldl (fun g kp => g.add_child kp) g).children = g.children ++ l := by
  induction l generalizing g with
  | nil => simp
  | cons a rest ih =>
    simp only [List.foldl_cons, ih (g.add_child a), add_child_children,
      List.append_assoc, List.singleton_append]

theorem foldl_add_child_total_cpu (l : List ProcessInfo) (g : AppGroup) :
    (l.foldl (fun g kp => g.add_child kp) g).total_cpu
      = g.total_cpu + (l.map (·.cpu_percent)).sum := by
  induction l generalizing g with
  | nil => simp
  | cons a rest ih =>
    rw [List.foldl_cons, ih (g.add_child a)]
    simp only [AppGroup.add_child, List.map_cons, List.sum_cons]
    ring

theorem foldl_add_child_total_disk_read (l : List ProcessInfo) (g : AppGroup) :
    (l.foldl (fun g kp => g.add_child kp) g).total_disk_read_rate
      = g.total_disk_read_rate + (l.map (·.disk_read_rate)).sum := by
  induction l generalizing g with
  | nil => simp
  | cons a rest ih =>
    rw [List.foldl_cons, ih (g.add_child a)]
    simp only [AppGroup.add_child, List.map_cons, List.sum_cons]
    ring

theorem foldl_add_child_total_disk_write (l : List ProcessInfo) (g : AppGroup) :
    (l.foldl (fun g kp => g.add_child kp) g).total_disk_write_rate
      = g.total_disk_write_rate + (l.map (·.disk_write_rate)).sum := by
  induction l generalizing g with
  | nil => simp
  | cons a rest ih =>
    rw [List.foldl_cons, ih (g.add_child a)]
    simp only [AppGroup.add_child, List.map_cons, List.sum_cons]
    ring

theorem foldl_add_child_total_memory (l : List ProcessInfo) (g : AppGroup)
    (h : g.total_memory + (l.map (·.memory_bytes)).sum < U64MOD) :
    (l.foldl (fun g kp => g.add_child kp) g).total_memory
      = g.total_memory + (l.map (·.memory_bytes)).sum := by
  induction l generalizing g with
  | nil => simp
  | cons a rest ih =>
    simp only [List.map_cons, List.sum_cons] at h
    have hstep : (g.add_child a).total_memory = g.total_memory + a.memory_bytes := by
      simp only [AppGroup.add_child]
      exact u64add_eq _ _ (by omega)
    have := ih (g.add_child a) (by rw [hstep]; omega)
    simp only [List.foldl_cons, this, hstep, List.map_cons, List.sum_cons]
    omega

theorem foldl_add_child_total_vram (l : List ProcessInfo) (g : AppGroup)
    (h : g.total_vram + (l.map (·.vram_bytes)).sum < U64MOD) :
    (l.foldl (fun g kp => g.add_child kp) g).total_vram
      = g.total_vram + (l.map (·.vram_bytes)).sum := by
  induction l generalizing g with
  | nil => simp
  | cons a rest ih =>
    simp only [List.map_cons, List.sum_cons] at h
    have hstep : (g.add_child a).total_vram = g.total_vram + a.vram_bytes := by
      simp only [AppGroup.add_child]
      exact u64add_eq _ _ (by omega)
    have := ih (g.add_child a) (by rw [hstep]; omega)
    simp only [List.foldl_cons, this, hstep, List.map_cons, List.sum_cons]
    omega
example : splitStr '/' "/usr/bin/firefox" = ["", "usr", "bin", "firefox"] := by decide
example : rsplitSlashNext "/usr/bin/firefox" = some "firefox" := by decide
example : rsplitSlashNext "" = some "" := by decide
example : splitWhitespace "python  main.py -q" = ["python", "main.py", "-q"] := by decide
example : trimEndChar "eth0::" ':' = "eth0" := by decide

end TaskManager

namespace TaskManager

/-! ### Counting lemmas for the grouping pipeline -/

theorem count_valsFlat_insertGrouped (m : List (String × List ProcessInfo))
    (k : String) (p x : ProcessInfo) :
    (valsFlat (insertGrouped m k p)).count x
      = (valsFlat m).count x + if x = p then 1 else 0 := by
  induction m with
  | nil =>
    by_cases hxp : x = p <;>
      simp [insertGrouped, valsFlat, List.count_cons, hxp]
  | cons e rest ih =>
    obtain ⟨ek, eps⟩ := e
    have ih' := ih
    simp only [valsFlat] at ih'
    by_cases h : ek = k
    · subst h
      by_cases hxp : x = p <;>
        simp [insertGrouped, valsFlat, List.count_append, List.count_cons, hxp] <;>
        omega
    · simp only [insertGrouped, if_neg h, valsFlat, List.map_cons,
        List.flatten_cons, List.count_append, ih']
      omega

theorem insertGrouped_vals_ne_nil (m : List (String × List ProcessInfo))
    (k : String) (p : ProcessInfo) (h : ∀ e ∈ m, e.2 ≠ []) :
    ∀ e ∈ insertGrouped m k p, e.2 ≠ [] := by
  induction m with
  | nil =>
    intro e he
    simp [insertGrouped] at he
    simp [he]
  | cons f rest ih =>
    obtain ⟨fk, fps⟩ := f
    intro e he
    by_cases hk : fk = k
    · subst hk
      simp only [insertGrouped, if_pos rfl] at he
      rcases List.mem_cons.mp he with h1 | h1
      · subst h1; simp
      · exact h e (List.mem_cons_of_mem _ h1)
    · simp only [insertGrouped, if_neg hk] at he
      rcases List.mem_cons.mp he with h1 | h1
      · subst h1; exact h (fk, fps) (List.mem_cons_self _ _)
      · exact ih (fun e' he' => h e' (List.mem_cons_of_mem _ he')) e h1

theorem partitionKernel_go_fst :
    ∀ (ps : List ProcessInfo) (a : List ProcessInfo)
      (m : List (String × List ProcessInfo)),
      (ps.foldl
        (fun acc p =>
          if is_kernel_thread p then (acc.1 ++ [p], acc.2)
          else (acc.1, insertGrouped acc.2 (groupKey p) p)) (a, m)).1
        = a ++ ps.filter (fun p => is_kernel_thread p)
  | [], a, m => by simp
  | p :: rest, a, m => by
    cases hk : is_kernel_thread p with
    | true =>
      simp only [List.foldl_cons, hk, if_true, List.filter_cons, hk]
      rw [partitionKernel_go_fst rest (a ++ [p]) m]
      simp
    | false =>
      simp only [List.foldl_cons, hk, List.filter_cons]
      rw [if_neg (by simp), partitionKernel_go_fst rest a (insertGrouped m (groupKey p) p)]
      simp

theorem partitionKernel_fst (ps : List ProcessInfo) :
    (partitionKernel ps).1 = ps.filter (fun p => is_kernel_thread p) := by
  have := partitionKernel_go_fst ps [] []
  simpa [partitionKernel] using this

theorem partitionKernel_go_count :
    ∀ (ps : List ProcessInfo) (a : List ProcessInfo)
      (m : List (String × List ProcessInfo)) (x : ProcessInfo),
      (ps.foldl
        (fun acc p =>
          if is_kernel_thread p then (acc.1 ++ [p], acc.2)
          else (acc.1, insertGrouped acc.2 (groupKey p) p)) (a, m)).1.count x
        + (valsFlat (ps.foldl
            (fun acc p =>
              if is_kernel_thread p then (acc.1 ++ [p], acc.2)
              else (acc.1, insertGrouped acc.2 (groupKey p) p)) (a, m)).2).count x
        = a.count x + (valsFlat m).count x + ps.count x
  | [], a, m, x => by simp
  | p :: rest, a, m, x => by
    cases hk : is_kernel_thread p with
    | true =>
      simp only [List.foldl_cons, hk, if_true]
      have := partitionKernel_go_count rest (a ++ [p]) m x
      by_cases hxp : x = p <;>
        simp only [this, List.count_append, List.count_cons, List.count_nil] <;>
        simp [hxp] <;> omega
    | false =>
      simp only [List.foldl_cons, hk]
      rw [if_neg (by simp)]
      rw [partitionKernel_go_count rest a (insertGrouped m (groupKey p) p) x]
      have hins := count_valsFlat_insertGrouped m (groupKey p) p x
      by_cases hxp : x = p
      · subst hxp
        simp [hins, List.count_cons]
        omega
      · simp [hins, List.count_cons, hxp]

theorem partitionKernel_count (ps : List ProcessInfo) (x : ProcessInfo) :
    (partitionKernel ps).1.count x + (valsFlat (partitionKernel ps).2).count x
      = ps.count x := by
  have := partitionKernel_go_count ps [] [] x
  simpa [partitionKernel, valsFlat] using this

theorem partitionKernel_go_vals_ne_nil :
    ∀ (ps : List ProcessInfo) (a : List ProcessInfo)
      (m : List (String × List ProcessInfo)),
      (∀ e ∈ m, e.2 ≠ []) →
      ∀ e ∈ (ps.foldl
        (fun acc p =>
          if is_kernel_thread p then (acc.1 ++ [p], acc.2)
          else (acc.1, insertGrouped acc.2 (groupKey p) p)) (a, m)).2, e.2 ≠ []
  | [], a, m, hm => by simpa using hm
  | p :: rest, a, m, hm => by
    cases hk : is_kernel_thread p with
    | true =>
      simp only [List.foldl_cons, hk, if_true]
      exact partitionKernel_go_vals_ne_nil rest (a ++ [p]) m hm
    | false =>
      simp only [List.foldl_cons, hk]
      rw [if_neg (by simp)]
      exact partitionKernel_go_vals_ne_nil rest a _
        (insertGrouped_vals_ne_nil m (groupKey p) p hm)

theorem partitionKernel_vals_ne_nil (ps : List ProcessInfo) :
    ∀ e ∈ (partitionKernel ps).2, e.2 ≠ [] := by
  have := partitionKernel_go_vals_ne_nil ps [] [] (by simp)
  simpa [partitionKernel] using this

theorem splitSingle_count (m : List (String × List ProcessInfo)) (x : ProcessInfo) :
    (valsFlat m).count x
      = ((splitSingle m).1.map Prod.snd).count x
        + (splitSingle m).2.flatten.count x := by
  induction m with
  | nil => simp [splitSingle, valsFlat]
  | cons e rest ih =>
    obtain ⟨ek, eps⟩ := e
    rcases eps with _ | ⟨p, _ | ⟨q, t⟩⟩ <;>
      simp only [splitSingle, valsFlat, List.map_cons, List.flatten_cons,
        List.count_append, List.count_cons, List.count_nil,
        List.nil_append, List.cons_append] at ih ⊢ <;>
      omega

theorem splitSingle_mem_ne_nil (m : List (String × List ProcessInfo))
    (hm : ∀ e ∈ m, e.2 ≠ []) :
    ∀ l ∈ (splitSingle m).2, l ≠ [] := by
  induction m with
  | nil => simp [splitSingle]
  | cons e rest ih =>
    obtain ⟨ek, eps⟩ := e
    have hrest : ∀ e' ∈ rest, e'.2 ≠ [] :=
      fun e' he' => hm e' (List.mem_cons_of_mem _ he')
    rcases eps with _ | ⟨p, _ | ⟨q, t⟩⟩
    · exact (hm (ek, []) (List.mem_cons_self _ _) rfl).elim
    · simpa [splitSingle] using ih hrest
    · intro l hl
      simp only [splitSingle] at hl
      rcases List.mem_cons.mp hl with h1 | h1
      · subst h1; simp
      · exact ih hrest l h1

theorem splitPfx_go_count :
    ∀ (ss : List (String × ProcessInfo)) (a : List (String × List ProcessInfo))
      (b : List ProcessInfo) (x : ProcessInfo),
      (valsFlat (ss.foldl
        (fun acc kp =>
          match pfxOf kp.2.name with
          | some pfx => (insertGrouped acc.1 (lowerStr pfx) kp.2, acc.2)
          | none => (acc.1, acc.2 ++ [kp.2])) (a, b)).1).count x
        + ((ss.foldl
            (fun acc kp =>
              match pfxOf kp.2.name with
              | some pfx => (insertGrouped acc.1 (lowerStr pfx) kp.2, acc.2)
              | none => (acc.1, acc.2 ++ [kp.2])) (a, b)).2).count x
        = (valsFlat a).count x + b.count x + (ss.map Prod.snd).count x
  | [], a, b, x => by simp
  | kp :: rest, a, b, x => by
    rcases hp : pfxOf kp.2.name with _ | pfx
    · simp only [List.foldl_cons, hp]
      rw [splitPfx_go_count rest a (b ++ [kp.2]) x]
      by_cases hxp : x = kp.2
      · subst hxp
        simp [List.count_append, List.count_cons]
        omega
      · simp [List.count_append, List.count_cons, hxp]
    · simp only [List.foldl_cons, hp]
      rw [splitPfx_go_count rest (insertGrouped a (lowerStr pfx) kp.2) b x]
      have hins := count_valsFlat_insertGrouped a (lowerStr pfx) kp.2 x
      by_cases hxp : x = kp.2
      · subst hxp
        simp [hins, List.count_cons]
        omega
      · simp [hins, List.count_cons, hxp]

theorem splitPfx_count (ss : List (String × ProcessInfo)) (x : ProcessInfo) :
    (valsFlat (splitPfx ss).1).count x + (splitPfx ss).2.count x
      = (ss.map Prod.snd).count x := by
  have := splitPfx_go_count ss [] [] x
  simpa [splitPfx, valsFlat] using this

theorem splitPfx_go_vals_ne_nil :
    ∀ (ss : List (String × ProcessInfo)) (a : List (String × List ProcessInfo))
      (b : List ProcessInfo),
      (∀ e ∈ a, e.2 ≠ []) →
      ∀ e ∈ (ss.foldl
        (fun acc kp =>
          match pfxOf kp.2.name with
          | some pfx => (insertGrouped acc.1 (lowerStr pfx) kp.2, acc.2)
          | none => (acc.1, acc.2 ++ [kp.2])) (a, b)).1, e.2 ≠ []
  | [], a, b, ha => by simpa using ha
  | kp :: rest, a, b, ha => by
    rcases hp : pfxOf kp.2.name with _ | pfx
    · simp only [List.foldl_cons, hp]
      exact splitPfx_go_vals_ne_nil rest a (b ++ [kp.2]) ha
    · simp only [List.foldl_cons, hp]
      exact splitPfx_go_vals_ne_nil rest _ b
        (insertGrouped_vals_ne_nil a (lowerStr pfx) kp.2 ha)

theorem splitPfx_vals_ne_nil (ss : List (String × ProcessInfo)) :
    ∀ e ∈ (splitPfx ss).1, e.2 ≠ [] := by
  have := splitPfx_go_vals_ne_nil ss [] [] (by simp)
  simpa [splitPfx] using this

theorem mergePfx_go_count :
    ∀ (bp : List (String × List ProcessInfo)) (a : List (List ProcessInfo))
      (b : List ProcessInfo) (x : ProcessInfo),
      ((bp.foldl
        (fun acc e =>
          if 2 ≤ e.2.length then (acc.1 ++ [e.2], acc.2) else (acc.1, acc.2 ++ e.2))
        (a, b)).1.flatten).count x
        + ((bp.foldl
            (fun acc e =>
              if 2 ≤ e.2.length then (acc.1 ++ [e.2], acc.2) else (acc.1, acc.2 ++ e.2))
            (a, b)).2).count x
        = a.flatten.count x + b.count x + (valsFlat bp).count x
  | [], a, b, x => by simp [valsFlat]
  | e :: rest, a, b, x => by
    by_cases hl : 2 ≤ e.2.length
    · simp only [List.foldl_cons, if_pos hl]
      rw [mergePfx_go_count rest (a ++ [e.2]) b x]
      simp [List.count_append, valsFlat]
      omega
    · simp only [List.foldl_cons, if_neg hl]
      rw [mergePfx_go_count rest a (b ++ e.2) x]
      simp [List.count_append, valsFlat]
      omega

theorem mergePfx_count (bp : List (String × List ProcessInfo))
    (np : List ProcessInfo) (x : ProcessInfo) :
    ((mergePfx bp np).1.flatten).count x + (mergePfx bp np).2.count x
      = np.count x + (valsFlat bp).count x := by
  have := mergePfx_go_count bp [] np x
  simpa [mergePfx] using this

theorem mergePfx_go_mem_ne_nil :
    ∀ (bp : List (String × List ProcessInfo)) (a : List (List ProcessInfo))
      (b : List ProcessInfo),
      (∀ l ∈ a, l ≠ []) →
      ∀ l ∈ (bp.foldl
        (fun acc e =>
          if 2 ≤ e.2.length then (acc.1 ++ [e.2], acc.2) else (acc.1, acc.2 ++ e.2))
        (a, b)).1, l ≠ []
  | [], a, b, ha => by simpa using ha
  | e :: rest, a, b, ha => by
    by_cases hl : 2 ≤ e.2.length
    · simp only [List.foldl_cons, if_pos hl]
      refine mergePfx_go_mem_ne_nil rest (a ++ [e.2]) b ?_
      intro l hl2
      rcases List.mem_append.mp hl2 with h1 | h1
      · exact ha l h1
      · simp only [List.mem_singleton] at h1
        subst h1
        intro hne
        rw [hne] at hl
        simp at hl
    · simp only [List.foldl_cons, if_neg hl]
      exact mergePfx_go_mem_ne_nil rest a (b ++ e.2) ha

theorem mergePfx_mem_ne_nil (bp : List (String × List ProcessInfo))
    (np : List ProcessInfo) :
    ∀ l ∈ (mergePfx bp np).1, l ≠ [] := by
  have := mergePfx_go_mem_ne_nil bp [] np (by simp)
  simpa [mergePfx] using this

/-! ### Leader selection and group construction lemmas -/

theorem pickFold_mem :
    ∀ (l : List (Nat × ProcessInfo)) (b : Nat × ProcessInfo),
      (l.foldl
        (fun best ip =>
          match best with
          | none => some ip
          | some b => if leaderKeyLt (leaderKey ip.2) (leaderKey b.2) then some ip else some b)
        (some b)) = some b
      ∨ ∃ c ∈ l, (l.foldl
        (fun best ip =>
          match best with
          | none => some ip
          | some b => if leaderKeyLt (leaderKey ip.2) (leaderKey b.2) then some ip else some b)
        (some b)) = some c
  | [], b => Or.inl rfl
  | ip :: rest, b => by
    simp only [List.foldl_cons]
    by_cases h : leaderKeyLt (leaderKey ip.2) (leaderKey b.2)
    · simp only [h, if_true]
      rcases pickFold_mem rest ip with h1 | ⟨c, hc, h1⟩
      · exact Or.inr ⟨ip, List.mem_cons_self _ _, h1⟩
      · exact Or.inr ⟨c, List.mem_cons_of_mem _ hc, h1⟩
    · simp only [h, if_false]
      rcases pickFold_mem rest b with h1 | ⟨c, hc, h1⟩
      · exact Or.inl h1
      · exact Or.inr ⟨c, List.mem_cons_of_mem _ hc, h1⟩

theorem pickLeaderIdx_lt (ps : List ProcessInfo) (h : ps ≠ []) :
    pickLeaderIdx ps < ps.length := by
  match ps with
  | p :: rest =>
    have henum : (p :: rest).enum = (0, p) :: rest.enumFrom 1 := by
      simp [List.enum_cons]
    unfold pickLeaderIdx
    rw [henum]
    simp only [List.foldl_cons]
    rcases pickFold_mem (rest.enumFrom 1) (0, p) with h1 | ⟨c, hc, h1⟩
    · rw [h1]
      simp
    · rw [h1]
      have hm : c ∈ (p :: rest).enum := by
        rw [henum]
        exact List.mem_cons_of_mem _ hc
      have := List.fst_lt_of_mem_enum hm
      simpa using this

theorem addChildrenExcept_leader (li : Nat) :
    ∀ (ps : List ProcessInfo) (g : AppGroup) (i : Nat),
      (addChildrenExcept g li ps i).leader = g.leader
  | [], g, i => rfl
  | p :: rest, g, i => by
    by_cases h : i = li
    · simp only [addChildrenExcept, if_pos h]
      exact addChildrenExcept_leader li rest g (i + 1)
    · simp only [addChildrenExcept, if_neg h]
      rw [addChildrenExcept_leader li rest (g.add_child p) (i + 1)]
      rfl

theorem addChildrenExcept_children_of_lt (li : Nat) :
    ∀ (ps : List ProcessInfo) (g : AppGroup) (i : Nat), li < i →
      (addChildrenExcept g li ps i).children = g.children ++ ps
  | [], g, i, _ => by simp [addChildrenExcept]
  | p :: rest, g, i, hlt => by
    have h : ¬ i = li := by omega
    simp only [addChildrenExcept, if_neg h]
    rw [addChildrenExcept_children_of_lt li rest (g.add_child p) (i + 1) (by omega)]
    simp [add_child_children]

theorem addChildrenExcept_children_of_ge (li : Nat) :
    ∀ (ps : List ProcessInfo) (g : AppGroup) (i : Nat), i ≤ li →
      (addChildrenExcept g li ps i).children = g.children ++ ps.eraseIdx (li - i)
  | [], g, i, _ => by simp [addChildrenExcept]
  | p :: rest, g, i, hle => by
    by_cases h : i = li
    · subst h
      simp only [addChildrenExcept, eq_self_iff_true, if_true]
      rw [addChildrenExcept_children_of_lt i rest g (i + 1) (by omega)]
      simp [List.eraseIdx]
    · have hlt : i < li := by omega
      simp only [addChildrenExcept, if_neg h]
      rw [addChildrenExcept_children_of_ge li rest (g.add_child p) (i + 1) (by omega)]
      have : li - i = (li - (i + 1)) + 1 := by omega
      rw [this]
      simp [add_child_children, List.eraseIdx]

theorem mkGroup_members_perm (ps : List ProcessInfo) (h : ps ≠ []) :
    (groupMembers (mkGroup ps)).Perm ps := by
  have hlt := pickLeaderIdx_lt ps h
  have hleader :
      (mkGroup ps).leader = ps.get ⟨pickLeaderIdx ps, hlt⟩ := by
    unfold mkGroup
    rw [addChildrenExcept_leader]
    show (AppGroup.new _).leader = _
    unfold AppGroup.new
    show ps.getD (pickLeaderIdx ps) ProcessInfo.defaultInfo = _
    rw [List.getD_eq_getElem _ _ hlt]
    simp [List.get_eq_getElem]
  have hchildren :
      (mkGroup ps).children = ps.eraseIdx (pickLeaderIdx ps) := by
    unfold mkGroup
    rw [addChildrenExcept_children_of_ge (pickLeaderIdx ps) ps _ 0 (Nat.zero_le _)]
    show (AppGroup.new _).children ++ _ = _
    unfold AppGroup.new
    simp
  unfold groupMembers
  rw [hleader, hchildren]
  exact perm_get_cons_eraseIdx ps (pickLeaderIdx ps) hlt

theorem mkGroup_process_count (ps : List ProcessInfo) (h : ps ≠ []) :
    (mkGroup ps).process_count = ps.length := by
  have hperm := mkGroup_members_perm ps h
  have := hperm.length_eq
  simpa [groupMembers, AppGroup.process_count, Nat.add_comm] using this

/-! ### Kernel group lemmas -/

theorem kernelLeader_fields (kps : List ProcessInfo) :
    (kernelLeader kps).pid = 0 ∧ (kernelLeader kps).display_name = "Kernel"
      ∧ (kernelLeader kps).vram_bytes = 0
      ∧ (kernelLeader kps).disk_read_rate = 0
      ∧ (kernelLeader kps).disk_write_rate = 0 := by
  unfold kernelLeader
  generalize hinit :
    ({ ProcessInfo.defaultInfo with
        pid := 0, display_name := "Kernel", name := "kernel" } : ProcessInfo) = li
  have hfields : li.pid = 0 ∧ li.display_name = "Kernel" ∧ li.vram_bytes = 0
      ∧ li.disk_read_rate = 0 ∧ li.disk_write_rate = 0 := by
    rw [← hinit]
    simp [ProcessInfo.defaultInfo]
  clear hinit
  induction kps generalizing li with
  | nil => simpa using hfields
  | cons kp rest ih =>
    simp only [List.foldl_cons]
    exact ih _ (by simpa using hfields)

theorem kernelLeader_cpu (kps : List ProcessInfo) :
    (kernelLeader kps).cpu_percent = (kps.map (·.cpu_percent)).sum := by
  unfold kernelLeader
  generalize hinit :
    ({ ProcessInfo.defaultInfo with
        pid := 0, display_name := "Kernel", name := "kernel" } : ProcessInfo) = li
  have hcpu : li.cpu_percent = 0 := by
    rw [← hinit]; simp [ProcessInfo.defaultInfo]
  clear hinit
  suffices h : ∀ (l : List ProcessInfo) (init : ProcessInfo),
      (l.foldl
        (fun li kp =>
          { li with
            cpu_percent := li.cpu_percent + kp.cpu_percent
            memory_bytes := u64add li.memory_bytes kp.memory_bytes
            threads := u64add li.threads 1 }) init).cpu_percent
        = init.cpu_percent + (l.map (·.cpu_percent)).sum by
    rw [h, hcpu, zero_add]
  intro l
  induction l with
  | nil => simp
  | cons a rest ih =>
    intro init
    simp only [List.foldl_cons]
    rw [ih]
    simp
    ring

theorem kernelLeader_memory (kps : List ProcessInfo)
    (hb : (kps.map (·.memory_bytes)).sum < U64MOD) :
    (kernelLeader kps).memory_bytes = (kps.map (·.memory_bytes)).sum := by
  unfold kernelLeader
  generalize hinit :
    ({ ProcessInfo.defaultInfo with
        pid := 0, display_name := "Kernel", name := "kernel" } : ProcessInfo) = li
  have hmem : li.memory_bytes = 0 := by
    rw [← hinit]; simp [ProcessInfo.defaultInfo]
  clear hinit
  suffices h : ∀ (l : List ProcessInfo) (init : ProcessInfo),
      init.memory_bytes + (l.map (·.memory_bytes)).sum < U64MOD →
      (l.foldl
        (fun li kp =>
          { li with
            cpu_percent := li.cpu_percent + kp.cpu_percent
            memory_bytes := u64add li.memory_bytes kp.memory_bytes
            threads := u64add li.threads 1 }) init).memory_bytes
        = init.memory_bytes + (l.map (·.memory_bytes)).sum by
    rw [h _ _ (by omega), hmem, Nat.zero_add]
  intro l
  induction l with
  | nil => simp
  | cons a rest ih =>
    intro init hbd
    simp only [List.map_cons, List.sum_cons] at hbd
    simp only [List.foldl_cons]
    rw [ih]
    · simp only [u64add_eq _ _ (show init.memory_bytes + a.memory_bytes < U64MOD by omega)]
      simp only [List.map_cons, List.sum_cons]
      omega
    · simp only [u64add_eq _ _ (show init.memory_bytes + a.memory_bytes < U64MOD by omega)]
      omega

theorem kernelGroup_leader (kps : List ProcessInfo) :
    (kernelGroup kps).leader = kernelLeader kps := by
  unfold kernelGroup
  rw [foldl_add_child_leader]
  rfl

theorem kernelGroup_children (kps : List ProcessInfo) :
    (kernelGroup kps).children = kps := by
  unfold kernelGroup
  rw [foldl_add_child_children]
  simp [AppGroup.new]

theorem kernelGroup_members (kps : List ProcessInfo) :
    groupMembers (kernelGroup kps) = kernelLeader kps :: kps := by
  unfold groupMembers
  rw [kernelGroup_leader, kernelGroup_children]

theorem kernelGroup_total_cpu (kps : List ProcessInfo) :
    (kernelGroup kps).total_cpu = 2 * (kps.map (·.cpu_percent)).sum := by
  unfold kernelGroup
  rw [foldl_add_child_total_cpu]
  show (AppGroup.new (kernelLeader kps)).total_cpu + _ = _
  unfold AppGroup.new
  simp only [kernelLeader_cpu]
  ring

theorem kernelGroup_total_memory (kps : List ProcessInfo)
    (hb : 2 * (kps.map (·.memory_bytes)).sum < U64MOD) :
    (kernelGroup kps).total_memory = 2 * (kps.map (·.memory_bytes)).sum := by
  unfold kernelGroup
  rw [foldl_add_child_total_memory]
  · show (AppGroup.new (kernelLeader kps)).total_memory + _ = _
    unfold AppGroup.new
    simp only [kernelLeader_memory kps (by omega)]
    omega
  · show (AppGroup.new (kernelLeader kps)).total_memory + _ < _
    unfold AppGroup.new
    simp only [kernelLeader_memory kps (by omega)]
    omega

theorem kernelGroup_total_vram (kps : List ProcessInfo)
    (hb : (kps.map (·.vram_bytes)).sum < U64MOD) :
    (kernelGroup kps).total_vram = (kps.map (·.vram_bytes)).sum := by
  have h0 : (AppGroup.new (kernelLeader kps)).total_vram = 0 := by
    unfold AppGroup.new
    exact (kernelLeader_fields kps).2.2.1
  unfold kernelGroup
  rw [foldl_add_child_total_vram _ _ (by rw [h0]; omega), h0]
  omega

theorem kernelGroup_total_disk_read (kps : List ProcessInfo) :
    (kernelGroup kps).total_disk_read_rate = (kps.map (·.disk_read_rate)).sum := by
  unfold kernelGroup
  rw [foldl_add_child_total_disk_read]
  show (AppGroup.new (kernelLeader kps)).total_disk_read_rate + _ = _
  unfold AppGroup.new
  rw [(kernelLeader_fields kps).2.2.2.1]
  ring

theorem kernelGroup_total_disk_write (kps : List ProcessInfo) :
    (kernelGroup kps).total_disk_write_rate = (kps.map (·.disk_write_rate)).sum := by
  unfold kernelGroup
  rw [foldl_add_child_total_disk_write]
  show (AppGroup.new (kernelLeader kps)).total_disk_write_rate + _ = _
  unfold AppGroup.new
  rw [(kernelLeader_fields kps).2.2.2.2]
  ring

/-! ### Sort and membership lemmas -/

theorem insertByCpu_perm (g : AppGroup) :
    ∀ (l : List AppGroup), (insertByCpu g l).Perm (g :: l)
  | [] => List.Perm.refl _
  | h :: t => by
    by_cases hc : g.total_cpu < h.total_cpu
    · simp only [insertByCpu, if_pos hc]
      exact ((insertByCpu_perm g t).cons h).trans (List.Perm.swap g h t)
    · simp only [insertByCpu, if_neg hc]
      exact List.Perm.refl _

theorem sortByCpu_perm : ∀ (l : List AppGroup), (sortByCpu l).Perm l
  | [] => List.Perm.refl _
  | g :: rest => by
    simp only [sortByCpu]
    exact (insertByCpu_perm g (sortByCpu rest)).trans ((sortByCpu_perm rest).cons g)

theorem allMembers_append (l₁ l₂ : List AppGroup) :
    allMembers (l₁ ++ l₂) = allMembers l₁ ++ allMembers l₂ := by
  simp [allMembers]

theorem allMembers_perm_of_perm {l₁ l₂ : List AppGroup} (h : l₁.Perm l₂) :
    (allMembers l₁).Perm (allMembers l₂) :=
  perm_flatten_of_perm (h.map groupMembers)

theorem allMembers_map_mkGroup :
    ∀ (ls : List (List ProcessInfo)), (∀ l ∈ ls, l ≠ []) →
      (allMembers (ls.map mkGroup)).Perm ls.flatten
  | [], _ => List.Perm.refl _
  | l :: rest, h => by
    simp only [List.map_cons, allMembers, List.flatten_cons]
    exact List.Perm.append
      (mkGroup_members_perm l (h l (List.mem_cons_self _ _)))
      (allMembers_map_mkGroup rest (fun l' hl' => h l' (List.mem_cons_of_mem _ hl')))

theorem allMembers_build_count (ps : List ProcessInfo) (x : ProcessInfo) :
    (allMembers (build_app_groups ps)).count x
      = ((if (partitionKernel ps).1 = [] then []
          else [kernelLeader (partitionKernel ps).1]) ++ ps).count x := by
  set kps := (partitionKernel ps).1 with hkps
  set m := (partitionKernel ps).2 with hm
  set sm := splitSingle m with hsm
  set pf := splitPfx sm.1 with hpf
  set mp := mergePfx pf.1 pf.2 with hmp
  set multi := sm.2 ++ mp.1 ++ mp.2.map (fun p => [p]) with hmulti
  set base := (if kps ≠ [] then [kernelGroup kps] else []) with hbase
  have hbuild : build_app_groups ps = sortByCpu (base ++ multi.map mkGroup) := rfl
  have hmulti_ne : ∀ l ∈ multi, l ≠ [] := by
    intro l hl
    rw [hmulti] at hl
    rcases List.mem_append.mp hl with h1 | h1
    · rcases List.mem_append.mp h1 with h2 | h2
      · exact splitSingle_mem_ne_nil m (partitionKernel_vals_ne_nil ps) l h2
      · exact mergePfx_mem_ne_nil pf.1 pf.2 l h2
    · obtain ⟨p, _, hp⟩ := List.mem_map.mp h1
      rw [← hp]
      simp
  have h1 : (allMembers (build_app_groups ps)).count x
      = (allMembers base).count x + (allMembers (multi.map mkGroup)).count x := by
    rw [hbuild, (allMembers_perm_of_perm (sortByCpu_perm _)).count_eq x,
      allMembers_append, List.count_append]
  have h2 : (allMembers (multi.map mkGroup)).count x = multi.flatten.count x :=
    (allMembers_map_mkGroup multi hmulti_ne).count_eq x
  have h3 : multi.flatten.count x
      = sm.2.flatten.count x + mp.1.flatten.count x + mp.2.count x := by
    rw [hmulti]
    simp [List.count_append, flatten_map_singleton]
    omega
  have e1 := partitionKernel_count ps x
  have e2 := splitSingle_count m x
  have e3 := splitPfx_count sm.1 x
  have e4 := mergePfx_count pf.1 pf.2 x
  rw [← hkps, ← hm] at e1
  rw [← hsm] at e2
  rw [← hpf] at e3
  rw [← hmp] at e4
  by_cases hk : kps = []
  · have hbase2 : base = [] := by rw [hbase, hk]; simp
    have hkc : kps.count x = 0 := by rw [hk]; simp
    rw [h1, h2, h3, hbase2, if_pos hk]
    simp only [allMembers, List.map_nil, List.flatten_nil, List.count_nil,
      List.nil_append]
    omega
  · have hbase2 : base = [kernelGroup kps] := by rw [hbase]; simp [hk]
    have hbm : (allMembers base).count x = (kernelLeader kps :: kps).count x := by
      rw [hbase2]
      simp only [allMembers, List.map_cons, List.map_nil, List.flatten_cons,
        List.flatten_nil, List.append_nil]
      rw [kernelGroup_members]
    rw [h1, h2, h3, hbm, if_neg hk]
    simp only [List.singleton_append, List.count_cons]
    omega

theorem kernelGroup_mem_build (ps : List ProcessInfo)
    (hk : (partitionKernel ps).1 ≠ []) :
    kernelGroup (partitionKernel ps).1 ∈ build_app_groups ps := by
  simp only [build_app_groups]
  rw [if_pos hk, ((sortByCpu_perm _).mem_iff)]
  exact List.mem_append_left _ (List.mem_cons_self _ _)

/-- C1: for every input process list with distinct nonzero pids (as every real
`/proc` enumeration has), `build_app_groups` places every input process id in
exactly one output `AppGroup`, counting each group's leader and children as
members — no duplicates, no omissions. -/
theorem C1_every_pid_in_exactly_one_group (ps : List ProcessInfo)
    (hnd : (ps.map (·.pid)).Nodup) (h0 : ∀ p ∈ ps, p.pid ≠ 0) :
    ∀ p ∈ ps, ((allMembers (build_app_groups ps)).map (·.pid)).count p.pid = 1 := by
  intro p hp
  have hperm : (allMembers (build_app_groups ps)).Perm
      ((if (partitionKernel ps).1 = [] then []
        else [kernelLeader (partitionKernel ps).1]) ++ ps) :=
    List.perm_iff_count.mpr (allMembers_build_count ps)
  rw [(hperm.map (·.pid)).count_eq, List.map_append, List.count_append]
  have hcount : ((ps.map (·.pid)).count p.pid) = 1 :=
    List.count_eq_one_of_mem hnd (List.mem_map.mpr ⟨p, hp, rfl⟩)
  by_cases hk : (partitionKernel ps).1 = []
  · simp [hk, hcount]
  · rw [if_neg hk]
    have hlp : (kernelLeader (partitionKernel ps).1).pid = 0 :=
      (kernelLeader_fields _).1
    simp only [List.map_cons, List.map_nil, List.count_cons, List.count_nil, hlp]
    have hpz : p.pid ≠ 0 := h0 p hp
    have hzp : ¬ (0 : Int) = p.pid := fun h => hpz h.symm
    simp [hpz, hzp, hcount]

/-- Witness for C1 at a concrete two-process input (one kernel thread,
one userspace process). -/
theorem C1_witness :
    ((allMembers (build_app_groups
      [{ ProcessInfo.defaultInfo with pid := 2, ppid := 0, name := "kthreadd" },
       { ProcessInfo.defaultInfo with
          pid := 100, ppid := 1, name := "foo", exe_path := "/usr/bin/foo" }])).map
        (·.pid)).count 100 = 1 := by
  exact C1_every_pid_in_exactly_one_group
    [{ ProcessInfo.defaultInfo with pid := 2, ppid := 0, name := "kthreadd" },
     { ProcessInfo.defaultInfo with
        pid := 100, ppid := 1, name := "foo", exe_path := "/usr/bin/foo" }]
    (by decide) (by decide)
    { ProcessInfo.defaultInfo with
        pid := 100, ppid := 1, name := "foo", exe_path := "/usr/bin/foo" }
    (by decide)

/-- C9: when the input contains kernel-classified processes, the synthetic
"Kernel" group pre-sums their CPU and memory into its leader and then adds
every kernel process again as a child, so `total_cpu` and `total_memory` are
exactly twice the kernel sums, while `total_vram` and the disk rates are the
single un-doubled sums.  (u64 bounds keep the wrapping additions exact.) -/
theorem C9_kernel_group_double_counting (ps : List ProcessInfo)
    (hk : ps.filter (fun p => is_kernel_thread p) ≠ [])
    (hmB : 2 * ((ps.filter (fun p => is_kernel_thread p)).map (·.memory_bytes)).sum
      < U64MOD)
    (hvB : ((ps.filter (fun p => is_kernel_thread p)).map (·.vram_bytes)).sum
      < U64MOD) :
    ∃ g ∈ build_app_groups ps,
      g.leader.pid = 0 ∧ g.leader.display_name = "Kernel"
      ∧ g.total_cpu
          = 2 * ((ps.filter (fun p => is_kernel_thread p)).map (·.cpu_percent)).sum
      ∧ g.total_memory
          = 2 * ((ps.filter (fun p => is_kernel_thread p)).map (·.memory_bytes)).sum
      ∧ g.total_vram
          = ((ps.filter (fun p => is_kernel_thread p)).map (·.vram_bytes)).sum
      ∧ g.total_disk_read_rate
          = ((ps.filter (fun p => is_kernel_thread p)).map (·.disk_read_rate)).sum
      ∧ g.total_disk_write_rate
          = ((ps.filter (fun p => is_kernel_thread p)).map (·.disk_write_rate)).sum := by
  have hflt : (partitionKernel ps).1 = ps.filter (fun p => is_kernel_thread p) :=
    partitionKernel_fst ps
  have hkne : (partitionKernel ps).1 ≠ [] := by rw [hflt]; exact hk
  refine ⟨kernelGroup (partitionKernel ps).1, kernelGroup_mem_build ps hkne,
    ?_, ?_, ?_, ?_, ?_, ?_, ?_⟩
  · rw [kernelGroup_leader]
    exact (kernelLeader_fields _).1
  · rw [kernelGroup_leader]
    exact (kernelLeader_fields _).2.1
  · rw [kernelGroup_total_cpu, hflt]
  · rw [kernelGroup_total_memory _ (by rw [hflt]; exact hmB), hflt]
  · rw [kernelGroup_total_vram _ (by rw [hflt]; exact hvB), hflt]
  · rw [kernelGroup_total_disk_read, hflt]
  · rw [kernelGroup_total_disk_write, hflt]

/-- Witness for C9 at a concrete input with two kernel threads. -/
theorem C9_witness :
    ∃ g ∈ build_app_groups
      [{ ProcessInfo.defaultInfo with
          pid := 2, ppid := 0, name := "kthreadd", cpu_percent := 3,
          memory_bytes := 10, vram_bytes := 7, disk_read_rate := 1,
          disk_write_rate := 2 },
       { ProcessInfo.defaultInfo with
          pid := 30, ppid := 2, name := "kworker", cpu_percent := 4,
          memory_bytes := 5, vram_bytes := 1, disk_read_rate := 3,
          disk_write_rate := 5 }],
      g.leader.pid = 0 ∧ g.leader.display_name = "Kernel"
      ∧ g.total_cpu = 2 * ((([{ ProcessInfo.defaultInfo with
          pid := 2, ppid := 0, name := "kthreadd", cpu_percent := 3,
          memory_bytes := 10, vram_bytes := 7, disk_read_rate := 1,
          disk_write_rate := 2 },
       { ProcessInfo.defaultInfo with
          pid := 30, ppid := 2, name := "kworker", cpu_percent := 4,
          memory_bytes := 5, vram_bytes := 1, disk_read_rate := 3,
          disk_write_rate := 5 }] : List ProcessInfo).filter
            (fun p => is_kernel_thread p)).map (·.cpu_percent)).sum
      ∧ g.total_memory = 2 * ((([{ ProcessInfo.defaultInfo with
          pid := 2, ppid := 0, name := "kthreadd", cpu_percent := 3,
          memory_bytes := 10, vram_bytes := 7, disk_read_rate := 1,
          disk_write_rate := 2 },
       { ProcessInfo.defaultInfo with
          pid := 30, ppid := 2, name := "kworker", cpu_percent := 4,
          memory_bytes := 5, vram_bytes := 1, disk_read_rate := 3,
          disk_write_rate := 5 }] : List ProcessInfo).filter
            (fun p => is_kernel_thread p)).map (·.memory_bytes)).sum
      ∧ g.total_vram = ((([{ ProcessInfo.defaultInfo with
          pid := 2, ppid := 0, name := "kthreadd", cpu_percent := 3,
          memory_bytes := 10, vram_bytes := 7, disk_read_rate := 1,
          disk_write_rate := 2 },
       { ProcessInfo.defaultInfo with
          pid := 30, ppid := 2, name := "kworker", cpu_percent := 4,
          memory_bytes := 5, vram_bytes := 1, disk_read_rate := 3,
          disk_write_rate := 5 }] : List ProcessInfo).filter
            (fun p => is_kernel_thread p)).map (·.vram_bytes)).sum
      ∧ g.total_disk_read_rate = ((([{ ProcessInfo.defaultInfo with
          pid := 2, ppid := 0, name := "kthreadd", cpu_percent := 3,
          memory_bytes := 10, vram_bytes := 7, disk_read_rate := 1,
          disk_write_rate := 2 },
       { ProcessInfo.defaultInfo with
          pid := 30, ppid := 2, name := "kworker", cpu_percent := 4,
          memory_bytes := 5, vram_bytes := 1, disk_read_rate := 3,
          disk_write_rate := 5 }] : List ProcessInfo).filter
            (fun p => is_kernel_thread p)).map (·.disk_read_rate)).sum
      ∧ g.total_disk_write_rate = ((([{ ProcessInfo.defaultInfo with
          pid := 2, ppid := 0, name := "kthreadd", cpu_percent := 3,
          memory_bytes := 10, vram_bytes := 7, disk_read_rate := 1,
          disk_write_rate := 2 },
       { ProcessInfo.defaultInfo with
          pid := 30, ppid := 2, name := "kworker", cpu_percent := 4,
          memory_bytes := 5, vram_bytes := 1, disk_read_rate := 3,
          disk_write_rate := 5 }] : List ProcessInfo).filter
            (fun p => is_kernel_thread p)).map (·.disk_write_rate)).sum := by
  exact C9_kernel_group_double_counting _ (by decide) (by decide) (by decide)

/-- C8: two non-kernel processes sharing the executable path
`/usr/bin/firefox` (with distinct display names) are grouped into a single
`AppGroup` with `process_count` 2, because non-kernel processes are keyed by
the lower-cased exe path. -/
theorem C8_firefox_single_group (p1 p2 : ProcessInfo)
    (h1 : is_kernel_thread p1 = false) (h2 : is_kernel_thread p2 = false)
    (e1 : p1.exe_path = "/usr/bin/firefox") (e2 : p2.exe_path = "/usr/bin/firefox")
    (hd : p1.display_name ≠ p2.display_name) :
    ∃ g, build_app_groups [p1, p2] = [g] ∧ g.process_count = 2 := by
  have hk1 : groupKey p1 = "/usr/bin/firefox" := by
    unfold groupKey
    rw [e1, if_pos (by decide)]
    decide
  have hk2 : groupKey p2 = "/usr/bin/firefox" := by
    unfold groupKey
    rw [e2, if_pos (by decide)]
    decide
  have hpart : partitionKernel [p1, p2]
      = ([], [("/usr/bin/firefox", [p1, p2])]) := by
    unfold partitionKernel
    simp only [List.foldl_cons, List.foldl_nil, h1, h2, Bool.false_eq_true,
      if_false, hk1, hk2]
    simp [insertGrouped]
  have hbuild : build_app_groups [p1, p2] = [mkGroup [p1, p2]] := by
    simp only [build_app_groups, hpart]
    simp [splitSingle, splitPfx, mergePfx, sortByCpu, insertByCpu]
  refine ⟨mkGroup [p1, p2], hbuild, ?_⟩
  rw [mkGroup_process_count [p1, p2] (by simp)]
  rfl

/-- Witness for C8: the spec's Firefox scenario (window-title process and
comm-named process). -/
theorem C8_witness :
    ∃ g, build_app_groups
      [{ ProcessInfo.defaultInfo with
          pid := 10, ppid := 1, name := "firefox-bin", display_name := "Firefox",
          exe_path := "/usr/bin/firefox" },
       { ProcessInfo.defaultInfo with
          pid := 11, ppid := 1, name := "firefox", display_name := "firefox",
          exe_path := "/usr/bin/firefox" }] = [g] ∧ g.process_count = 2 := by
  exact C8_firefox_single_group _ _ (by decide) (by decide) rfl rfl (by decide)

/-! ### Delta-reset lemmas (C3 support) -/

theorem diskLoop_reset (prev : List (String × Nat × Nat)) (e : ℚ) :
    ∀ (lines : List DiskLine) (d : DiskDevice),
      d ∈ (diskLoop prev e lines).1 → ∀ pr pw,
      assocFind prev d.name = some (pr, pw) →
      (d.total_read < pr → d.read_bytes_sec = 0)
      ∧ (d.total_write < pw → d.write_bytes_sec = 0)
  | [], d, hd => by simp [diskLoop] at hd
  | line :: rest, d, hd => by
    intro pr pw hfind
    by_cases hn : isDiskName line.name
    · rcases hfd : assocFind prev line.name with _ | pv
      · simp only [diskLoop, if_pos hn, hfd] at hd
        rcases List.mem_cons.mp hd with h1 | h1
        · subst h1
          simp only at hfind
          rw [hfd] at hfind
          exact absurd hfind (by simp)
        · exact diskLoop_reset prev e rest d h1 pr pw hfind
      · simp only [diskLoop, if_pos hn, hfd] at hd
        rcases List.mem_cons.mp hd with h1 | h1
        · subst h1
          simp only at hfind ⊢
          rw [hfd] at hfind
          obtain ⟨hpr, hpw⟩ : pv.1 = pr ∧ pv.2 = pw := by
            cases hfind
            exact ⟨rfl, rfl⟩
          constructor
          · intro hlt
            rw [← hpr] at hlt
            rw [Nat.sub_eq_zero_of_le (Nat.le_of_lt hlt)]
            simp
          · intro hlt
            rw [← hpw] at hlt
            rw [Nat.sub_eq_zero_of_le (Nat.le_of_lt hlt)]
            simp
        · exact diskLoop_reset prev e rest d h1 pr pw hfind
    · simp only [diskLoop, if_neg hn] at hd
      exact diskLoop_reset prev e rest d hd pr pw hfind

theorem netLoop_reset (prev : List (String × Nat × Nat)) (e : ℚ) :
    ∀ (lines : List NetLine) (d : NetworkInterface),
      d ∈ (netLoop prev e lines).1 → ∀ pr pt,
      assocFind prev d.name = some (pr, pt) →
      (d.total_rx < pr → d.rx_bytes_sec = 0)
      ∧ (d.total_tx < pt → d.tx_bytes_sec = 0)
  | [], d, hd => by simp [netLoop] at hd
  | line :: rest, d, hd => by
    intro pr pt hfind
    by_cases hn : trimEndChar line.iface_raw ':' = "lo"
    · simp only [netLoop, if_pos hn] at hd
      exact netLoop_reset prev e rest d hd pr pt hfind
    · rcases hfd : assocFind prev (trimEndChar line.iface_raw ':') with _ | pv
      · simp only [netLoop, if_neg hn, hfd] at hd
        rcases List.mem_cons.mp hd with h1 | h1
        · subst h1
          simp only at hfind
          rw [hfd] at hfind
          exact absurd hfind (by simp)
        · exact netLoop_reset prev e rest d h1 pr pt hfind
      · simp only [netLoop, if_neg hn, hfd] at hd
        rcases List.mem_cons.mp hd with h1 | h1
        · subst h1
          simp only at hfind ⊢
          rw [hfd] at hfind
          obtain ⟨hpr, hpt⟩ : pv.1 = pr ∧ pv.2 = pt := by
            cases hfind
            exact ⟨rfl, rfl⟩
          constructor
          · intro hlt
            rw [← hpr] at hlt
            rw [Nat.sub_eq_zero_of_le (Nat.le_of_lt hlt)]
            simp
          · intro hlt
            rw [← hpt] at hlt
            rw [Nat.sub_eq_zero_of_le (Nat.le_of_lt hlt)]
            simp
        · exact netLoop_reset prev e rest d h1 pr pt hfind
    
theorem processStep_reset (dt nc tm : Nat) (gpu : List (Int × Nat))
    (dn : List (String × String)) (wt : List (Int × String))
    (m : List (Int × (Nat × Nat × Nat))) (raw : ProcessInfo) :
    ((processStep dt nc tm gpu dn wt m raw).1.total_cpu_time
        < (processStep dt nc tm gpu dn wt m raw).1.prev_cpu_time →
      (processStep dt nc tm gpu dn wt m raw).1.cpu_percent = 0)
    ∧ ((processStep dt nc tm gpu dn wt m raw).1.disk_read_bytes
        < (processStep dt nc tm gpu dn wt m raw).1.prev_disk_read →
      (processStep dt nc tm gpu dn wt m raw).1.disk_read_rate = 0)
    ∧ ((processStep dt nc tm gpu dn wt m raw).1.disk_write_bytes
        < (processStep dt nc tm gpu dn wt m raw).1.prev_disk_write →
      (processStep dt nc tm gpu dn wt m raw).1.disk_write_rate = 0) := by
  simp only [processStep]
  refine ⟨?_, ?_, ?_⟩
  · intro hlt
    rw [Nat.sub_eq_zero_of_le (Nat.le_of_lt hlt)]
    simp
  · intro hlt
    rw [Nat.sub_eq_zero_of_le (Nat.le_of_lt hlt)]
    simp
  · intro hlt
    rw [Nat.sub_eq_zero_of_le (Nat.le_of_lt hlt)]
    simp

theorem processLoop_out_mem (dt nc tm : Nat) (gpu : List (Int × Nat))
    (dn : List (String × String)) (wt : List (Int × String)) :
    ∀ (raws : List ProcessInfo) (m : List (Int × (Nat × Nat × Nat)))
      (info : ProcessInfo),
      info ∈ (processLoop dt nc tm gpu dn wt m raws).1 →
      ∃ m' raw, info = (processStep dt nc tm gpu dn wt m' raw).1
  | [], m, info => by simp [processLoop]
  | raw :: rest, m, info => by
    intro hmem
    simp only [processLoop] at hmem
    rcases List.mem_cons.mp hmem with h1 | h1
    · exact ⟨m, raw, h1⟩
    · exact processLoop_out_mem dt nc tm gpu dn wt rest _ info h1

/-- C3: every rate computation saturates its counter delta at zero: for any
stored previous counter and a smaller current reading (counter reset), the
disk-device rates, network-interface rates, per-process CPU percent and
per-process disk I/O rates all compute a delta of 0 — never negative, never
wrapped. -/
theorem C3_reset_delta_zero :
    (∀ (prev : List (String × Nat × Nat)) (e : ℚ) (lines : List DiskLine)
        (d : DiskDevice), d ∈ (diskCollect prev e lines).1 →
        ∀ pr pw, assocFind prev d.name = some (pr, pw) →
        (d.total_read < pr → d.read_bytes_sec = 0)
        ∧ (d.total_write < pw → d.write_bytes_sec = 0))
    ∧ (∀ (prev : List (String × Nat × Nat)) (e : ℚ) (lines : List NetLine)
        (d : NetworkInterface), d ∈ (netCollect prev e lines).1 →
        ∀ pr pt, assocFind prev d.name = some (pr, pt) →
        (d.total_rx < pr → d.rx_bytes_sec = 0)
        ∧ (d.total_tx < pt → d.tx_bytes_sec = 0))
    ∧ (∀ (st : PColState) (tc nc : Nat) (gpu : List (Int × Nat))
        (dn : List (String × String)) (wt : List (Int × String))
        (raws : List ProcessInfo) (info : ProcessInfo),
        info ∈ (processCollect st tc nc gpu dn wt raws).1 →
        (info.total_cpu_time < info.prev_cpu_time → info.cpu_percent = 0)
        ∧ (info.disk_read_bytes < info.prev_disk_read → info.disk_read_rate = 0)
        ∧ (info.disk_write_bytes < info.prev_disk_write → info.disk_write_rate = 0)) := by
  refine ⟨?_, ?_, ?_⟩
  · intro prev e lines d hd pr pw hf
    exact diskLoop_reset prev _ lines d hd pr pw hf
  · intro prev e lines d hd pr pt hf
    exact netLoop_reset prev _ lines d hd pr pt hf
  · intro st tc nc gpu dn wt raws info hmem
    obtain ⟨m', raw, hout⟩ :=
      processLoop_out_mem (tc - st.prev_total_cpu) nc st.total_memory gpu dn wt
        raws st.prev_processes info hmem
    rw [hout]
    exact processStep_reset _ _ _ _ _ _ _ _

/-- Witness for C3 at concrete counter resets: disk device `sda` falls from
1000 to 512 read/written bytes, interface `eth0` falls from 900/800 to 100/50,
and process 100 falls from 1000 CPU ticks and 500 I/O bytes to 800 and 300. -/
theorem C3_witness :
    ((⟨"sda", 0, 0, 512, 512⟩ : DiskDevice).read_bytes_sec = 0
      ∧ (⟨"sda", 0, 0, 512, 512⟩ : DiskDevice).write_bytes_sec = 0)
    ∧ ((⟨"eth0", 0, 0, 100, 50⟩ : NetworkInterface).rx_bytes_sec = 0
      ∧ (⟨"eth0", 0, 0, 100, 50⟩ : NetworkInterface).tx_bytes_sec = 0) := by
  have hdm : (⟨"sda", 0, 0, 512, 512⟩ : DiskDevice)
      ∈ (diskCollect [("sda", 1000, 1000)] 1 [⟨"sda", 1, 1⟩]).1 := by
    have h512 : u64mul 1 512 = 512 := by norm_num [u64mul, U64MOD]
    have hsub : ((512 : Nat) - 1000) = 0 := by norm_num
    have hfd : assocFind [("sda", (1000, 1000))] "sda" = some (1000, 1000) := by
      decide
    simp only [diskCollect, diskLoop]
    rw [if_pos (by decide), hfd]
    simp only [h512, hsub]
    simp
  have hnm : (⟨"eth0", 0, 0, 100, 50⟩ : NetworkInterface)
      ∈ (netCollect [("eth0", 900, 800)] 1 [⟨"eth0:", 100, 50⟩]).1 := by
    have htr : trimEndChar "eth0:" ':' = "eth0" := by decide
    have hfd : assocFind [("eth0", (900, 800))] "eth0" = some (900, 800) := by
      decide
    simp only [netCollect, netLoop, htr]
    rw [if_neg (by decide), hfd]
    have h1 : ((100 : Nat) - 900) = 0 := by norm_num
    have h2 : ((50 : Nat) - 800) = 0 := by norm_num
    simp only [h1, h2]
    simp
  refine ⟨?_, ?_⟩
  · have := (C3_reset_delta_zero.1 [("sda", 1000, 1000)] 1 [⟨"sda", 1, 1⟩]
      ⟨"sda", 0, 0, 512, 512⟩ hdm 1000 1000 (by decide))
    exact ⟨this.1 (by norm_num), this.2 (by norm_num)⟩
  · have := (C3_reset_delta_zero.2.1 [("eth0", 900, 800)] 1 [⟨"eth0:", 100, 50⟩]
      ⟨"eth0", 0, 0, 100, 50⟩ hnm 900 800 (by decide))
    exact ⟨this.1 (by norm_num), this.2 (by norm_num)⟩

/-! ### Loop-lookup lemma (C2/C5 support) -/

theorem processLoop_lookup (dt nc tm : Nat) (gpu : List (Int × Nat))
    (dn : List (String × String)) (wt : List (Int × String)) :
    ∀ (raws : List ProcessInfo) (m : List (Int × (Nat × Nat × Nat))) (i : Nat)
      (raw : ProcessInfo),
      raws.get? i = some raw →
      (∀ q ∈ raws.take i, q.pid ≠ raw.pid) →
      ∃ m', assocFind m' raw.pid = assocFind m raw.pid
        ∧ (processLoop dt nc tm gpu dn wt m raws).1.get? i
            = some (processStep dt nc tm gpu dn wt m' raw).1
  | [], m, i, raw => by simp
  | r0 :: rest, m, 0, raw => by
    intro hget _
    simp only [List.get?] at hget
    cases hget
    exact ⟨m, rfl, rfl⟩
  | r0 :: rest, m, i + 1, raw => by
    intro hget hfresh
    simp only [List.get?] at hget
    have hfresh0 : r0.pid ≠ raw.pid := by
      apply hfresh
      simp [List.take]
    obtain ⟨m', hm', hout⟩ :=
      processLoop_lookup dt nc tm gpu dn wt rest
        (processStep dt nc tm gpu dn wt m r0).2 i raw hget
        (fun q hq => hfresh q (by simp [List.take, hq]))
    refine ⟨m', ?_, hout⟩
    rw [hm']
    have hsnd : (processStep dt nc tm gpu dn wt m r0).2
        = assocInsert m r0.pid
            (r0.total_cpu_time, r0.disk_read_bytes, r0.disk_write_bytes) := rfl
    rw [hsnd, assocFind_assocInsert]
    rw [if_neg hfresh0]

/-- C5: for a process seen in the previous cycle (stored counter `c`) whose
CPU counter did not reset, and a cycle with a positive system tick delta, the
computed CPU percent is exactly
`100 × num_cores × Δprocess_ticks / Δtotal_ticks` — so a single-threaded
process that consumed one full core of the interval reads near 100, not
`100 / num_cores`. -/
theorem C5_process_cpu_percent_formula (st : PColState) (tc nc : Nat)
    (gpu : List (Int × Nat)) (dn : List (String × String))
    (wt : List (Int × String)) (raws : List ProcessInfo) (i : Nat)
    (raw : ProcessInfo) (c dr dw : Nat)
    (hget : raws.get? i = some raw)
    (hfresh : ∀ q ∈ raws.take i, q.pid ≠ raw.pid)
    (hprev : assocFind st.prev_processes raw.pid = some (c, dr, dw))
    (hmono : c ≤ raw.total_cpu_time)
    (hdt : 0 < tc - st.prev_total_cpu) :
    ((processCollect st tc nc gpu dn wt raws).1.get? i).map (·.cpu_percent)
      = some (100 * (nc : ℚ) * ((raw.total_cpu_time - c : Nat) : ℚ)
          / ((tc - st.prev_total_cpu : Nat) : ℚ)) := by
  obtain ⟨m', hm', hout⟩ :=
    processLoop_lookup (tc - st.prev_total_cpu) nc st.total_memory gpu dn wt
      raws st.prev_processes i raw hget hfresh
  have hcollect : (processCollect st tc nc gpu dn wt raws).1
      = (processLoop (tc - st.prev_total_cpu) nc st.total_memory gpu dn wt
          st.prev_processes raws).1 := rfl
  rw [hcollect, hout]
  have hfind : assocFind m' raw.pid = some (c, dr, dw) := by rw [hm', hprev]
  have hcpu : (processStep (tc - st.prev_total_cpu) nc st.total_memory gpu dn wt
      m' raw).1.cpu_percent
      = ((raw.total_cpu_time - c : Nat) : ℚ) / ((tc - st.prev_total_cpu : Nat) : ℚ)
          * 100 * (nc : ℚ) := by
    simp only [processStep, hfind]
    rw [if_pos hdt]
    simp
  rw [Option.map_some']
  rw [hcpu]
  ring_nf

/-- Witness for C5: four cores, the process consumed 250 of 1000 system
ticks (one full core) — the computed percent is 100. -/
theorem C5_witness :
    ((processCollect ⟨[((100 : Int), (50, 0, 0))], 1000, 0⟩ 2000 4 [] [] []
        [{ ProcessInfo.defaultInfo with pid := 100, total_cpu_time := 300 }]).1.get?
          0).map (·.cpu_percent) = some 100 := by
  have h := C5_process_cpu_percent_formula ⟨[((100 : Int), (50, 0, 0))], 1000, 0⟩
    2000 4 [] [] []
    [{ ProcessInfo.defaultInfo with pid := 100, total_cpu_time := 300 }] 0
    { ProcessInfo.defaultInfo with pid := 100, total_cpu_time := 300 }
    50 0 0 (by decide) (by simp) (by decide) (by decide) (by decide)
  rw [h]
  norm_num

/-! ### First-cycle lemmas (C2 support) -/

theorem diskLoop_nil_rates (e : ℚ) :
    ∀ (lines : List DiskLine) (d : DiskDevice),
      d ∈ (diskLoop [] e lines).1 → d.read_bytes_sec = 0 ∧ d.write_bytes_sec = 0
  | [], d => by simp [diskLoop]
  | line :: rest, d => by
    intro hd
    by_cases hn : isDiskName line.name
    · have hfd : assocFind ([] : List (String × Nat × Nat)) line.name = none := rfl
      simp only [diskLoop, if_pos hn, hfd] at hd
      rcases List.mem_cons.mp hd with h1 | h1
      · subst h1
        exact ⟨rfl, rfl⟩
      · exact diskLoop_nil_rates e rest d h1
    · simp only [diskLoop, if_neg hn] at hd
      exact diskLoop_nil_rates e rest d hd

theorem netLoop_nil_rates (e : ℚ) :
    ∀ (lines : List NetLine) (d : NetworkInterface),
      d ∈ (netLoop [] e lines).1 → d.rx_bytes_sec = 0 ∧ d.tx_bytes_sec = 0
  | [], d => by simp [netLoop]
  | line :: rest, d => by
    intro hd
    by_cases hn : trimEndChar line.iface_raw ':' = "lo"
    · simp only [netLoop, if_pos hn] at hd
      exact netLoop_nil_rates e rest d hd
    · have hfd : assocFind ([] : List (String × Nat × Nat))
          (trimEndChar line.iface_raw ':') = none := rfl
      simp only [netLoop, if_neg hn, hfd] at hd
      rcases List.mem_cons.mp hd with h1 | h1
      · subst h1
        exact ⟨rfl, rfl⟩
      · exact netLoop_nil_rates e rest d h1

/-- C2 (amended): the first collection cycle after a collector is created
(empty previous-counter state) yields rate 0 for every disk device and
network interface, and for a process first seen this cycle the disk I/O rates
are 0 — but the per-process CPU percent treats the missing prior counter as 0
rather than priming it, computing
`total_cpu_time / Δtotal × 100 × num_cores` (nonzero whenever the process has
accumulated CPU time and the tick delta is positive). -/
theorem C2_first_cycle_rates :
    (∀ (e : ℚ) (lines : List DiskLine) (d : DiskDevice),
        d ∈ (diskCollect [] e lines).1 →
        d.read_bytes_sec = 0 ∧ d.write_bytes_sec = 0)
    ∧ (∀ (e : ℚ) (lines : List NetLine) (d : NetworkInterface),
        d ∈ (netCollect [] e lines).1 →
        d.rx_bytes_sec = 0 ∧ d.tx_bytes_sec = 0)
    ∧ (∀ (st : PColState) (tc nc : Nat) (gpu : List (Int × Nat))
        (dn : List (String × String)) (wt : List (Int × String))
        (raws : List ProcessInfo) (i : Nat) (raw : ProcessInfo),
        raws.get? i = some raw →
        (∀ q ∈ raws.take i, q.pid ≠ raw.pid) →
        assocFind st.prev_processes raw.pid = none →
        ((processCollect st tc nc gpu dn wt raws).1.get? i).map
            (fun x => (x.disk_read_rate, x.disk_write_rate, x.cpu_percent))
          = some (0, 0,
              if 0 < tc - st.prev_total_cpu then
                ((raw.total_cpu_time : ℚ) / ((tc - st.prev_total_cpu : Nat) : ℚ))
                  * 100 * (nc : ℚ)
              else 0)) := by
  refine ⟨?_, ?_, ?_⟩
  · intro e lines d hd
    exact diskLoop_nil_rates _ lines d hd
  · intro e lines d hd
    exact netLoop_nil_rates _ lines d hd
  · intro st tc nc gpu dn wt raws i raw hget hfresh hnone
    obtain ⟨m', hm', hout⟩ :=
      processLoop_lookup (tc - st.prev_total_cpu) nc st.total_memory gpu dn wt
        raws st.prev_processes i raw hget hfresh
    have hcollect : (processCollect st tc nc gpu dn wt raws).1
        = (processLoop (tc - st.prev_total_cpu) nc st.total_memory gpu dn wt
            st.prev_processes raws).1 := rfl
    rw [hcollect, hout]
    have hfind : assocFind m' raw.pid = none := by rw [hm', hnone]
    rw [Option.map_some']
    simp only [processStep, hfind]
    simp [Nat.sub_self]

/-- Counterexample for C2 as stated: a process first seen with 500
accumulated CPU ticks, against a first-cycle system tick delta of 1000 and
one core, computes CPU percent 50, not 0. -/
theorem C2_counterexample :
    ((processCollect ⟨[], 0, 0⟩ 1000 1 [] [] []
        [{ ProcessInfo.defaultInfo with pid := 100, total_cpu_time := 500 }]).1.map
          (·.cpu_percent)) = [50] ∧ (50 : ℚ) ≠ 0 := by
  constructor
  · have hstep : (processCollect ⟨[], 0, 0⟩ 1000 1 [] [] []
        [{ ProcessInfo.defaultInfo with pid := 100, total_cpu_time := 500 }]).1
        = [(processStep (1000 - 0) 1 0 [] [] [] []
            { ProcessInfo.defaultInfo with pid := 100, total_cpu_time := 500 }).1] :=
      rfl
    rw [hstep]
    simp only [List.map_cons, List.map_nil, processStep]
    norm_num [assocFind]
  · norm_num

/-- Witness for C2's amended statement at concrete first-cycle inputs. -/
theorem C2_witness :
    ((⟨"sda", 0, 0, 512, 512⟩ : DiskDevice).read_bytes_sec = 0
      ∧ (⟨"sda", 0, 0, 512, 512⟩ : DiskDevice).write_bytes_sec = 0)
    ∧ ((⟨"eth0", 0, 0, 100, 50⟩ : NetworkInterface).rx_bytes_sec = 0
      ∧ (⟨"eth0", 0, 0, 100, 50⟩ : NetworkInterface).tx_bytes_sec = 0)
    ∧ ((processCollect ⟨[], 0, 0⟩ 1000 2 [] [] []
        [{ ProcessInfo.defaultInfo with
            pid := 7, total_cpu_time := 250,
            disk_read_bytes := 900, disk_write_bytes := 800 }]).1.get? 0).map
          (fun x => (x.disk_read_rate, x.disk_write_rate, x.cpu_percent))
        = some (0, 0,
            if 0 < 1000 - 0 then
              (((250 : Nat) : ℚ) / (((1000 : Nat) - 0 : Nat) : ℚ)) * 100 * ((2 : Nat) : ℚ)
            else 0) := by
  refine ⟨?_, ?_, ?_⟩
  · have hdm : (⟨"sda", 0, 0, 512, 512⟩ : DiskDevice)
        ∈ (diskCollect [] 1 [⟨"sda", 1, 1⟩]).1 := by
      have h512 : u64mul 1 512 = 512 := by norm_num [u64mul, U64MOD]
      simp only [diskCollect, diskLoop]
      rw [if_pos (by decide)]
      simp only [h512]
      simp [assocFind]
    exact C2_first_cycle_rates.1 1 [⟨"sda", 1, 1⟩] _ hdm
  · have hnm : (⟨"eth0", 0, 0, 100, 50⟩ : NetworkInterface)
        ∈ (netCollect [] 1 [⟨"eth0:", 100, 50⟩]).1 := by
      have htr : trimEndChar "eth0:" ':' = "eth0" := by decide
      simp only [netCollect, netLoop, htr]
      rw [if_neg (by decide)]
      simp [assocFind]
    exact C2_first_cycle_rates.2.1 1 [⟨"eth0:", 100, 50⟩] _ hnm
  · exact C2_first_cycle_rates.2.2 ⟨[], 0, 0⟩ 1000 2 [] [] []
      [{ ProcessInfo.defaultInfo with
          pid := 7, total_cpu_time := 250,
          disk_read_bytes := 900, disk_write_bytes := 800 }] 0
      { ProcessInfo.defaultInfo with
          pid := 7, total_cpu_time := 250,
          disk_read_bytes := 900, disk_write_bytes := 800 }
      (by decide) (by simp) (by decide)

/-! ### CPU percent lemmas (C4) -/

theorem cpuLineTotals_eq (t : CpuTicks)
    (hb : t.user + t.nice + t.system + t.idle + t.iowait + t.irq + t.softirq
      < U64MOD) :
    cpuLineTotals t
      = (t.user + t.nice + t.system + t.idle + t.iowait + t.irq + t.softirq,
         t.idle + t.iowait) := by
  unfold cpuLineTotals
  rw [u64add_eq t.user t.nice (by omega)]
  rw [u64add_eq _ t.system (by omega)]
  rw [u64add_eq _ t.idle (by omega)]
  rw [u64add_eq _ t.iowait (by omega)]
  rw [u64add_eq _ t.irq (by omega)]
  rw [u64add_eq _ t.softirq (by omega)]
  rw [u64add_eq t.idle t.iowait (by omega)]

/-- C4 (amended): for a pair of consecutive readings with per-component
monotone counters (as genuine `/proc/stat` counters are), the computed
percent equals `100 × (1 − Δidle/Δtotal)` when `Δtotal > 0` and is 0 when
`Δtotal = 0`, and it lies in `[0, 100]`; the lower bound 0 holds for every
reading pair unconditionally.  (For inconsistent pairs with
`Δidle > Δtotal > 0` the u64 subtraction wraps and the percent exceeds 100 —
see the counterexample.) -/
theorem C4_cpu_percent_formula_and_bounds (t0 t : CpuTicks)
    (hu : t0.user ≤ t.user) (hn : t0.nice ≤ t.nice) (hs : t0.system ≤ t.system)
    (hi : t0.idle ≤ t.idle) (hw : t0.iowait ≤ t.iowait) (hq : t0.irq ≤ t.irq)
    (hsq : t0.softirq ≤ t.softirq)
    (hbound : t.user + t.nice + t.system + t.idle + t.iowait + t.irq + t.softirq
      < U64MOD) :
    ((cpuLinePercent (cpuLineTotals t0).1 (cpuLineTotals t0).2 t).1
        = (if 0 < (cpuLineTotals t).1 - (cpuLineTotals t0).1 then
            100 * (1 - (((cpuLineTotals t).2 - (cpuLineTotals t0).2 : Nat) : ℚ)
              / (((cpuLineTotals t).1 - (cpuLineTotals t0).1 : Nat) : ℚ))
          else 0))
    ∧ 0 ≤ (cpuLinePercent (cpuLineTotals t0).1 (cpuLineTotals t0).2 t).1
    ∧ (cpuLinePercent (cpuLineTotals t0).1 (cpuLineTotals t0).2 t).1 ≤ 100 := by
  have hb0 : t0.user + t0.nice + t0.system + t0.idle + t0.iowait + t0.irq
      + t0.softirq < U64MOD := by omega
  rw [cpuLineTotals_eq t hbound, cpuLineTotals_eq t0 hb0]
  set S0 := t0.user + t0.nice + t0.system + t0.idle + t0.iowait + t0.irq + t0.softirq
    with hS0
  set S := t.user + t.nice + t.system + t.idle + t.iowait + t.irq + t.softirq
    with hS
  set I0 := t0.idle + t0.iowait with hI0
  set I := t.idle + t.iowait with hI
  have hdle : I - I0 ≤ S - S0 := by omega
  have hSlt : S - S0 < U64MOD := by omega
  have hwsub : u64wsub (S - S0) (I - I0) = (S - S0) - (I - I0) :=
    u64wsub_eq _ _ hdle hSlt
  unfold cpuLinePercent
  rw [cpuLineTotals_eq t hbound]
  simp only [hwsub]
  by_cases hpos : 0 < S - S0
  · rw [if_pos hpos, if_pos hpos]
    have hcast : (((S - S0) - (I - I0) : Nat) : ℚ)
        = ((S - S0 : Nat) : ℚ) - ((I - I0 : Nat) : ℚ) := by
      push_cast [Nat.cast_sub hdle]
      ring
    have hne : ((S - S0 : Nat) : ℚ) ≠ 0 := by
      exact_mod_cast Nat.pos_iff_ne_zero.mp hpos
    constructor
    · rw [hcast]
      field_simp
      ring
    constructor
    · rw [hcast]
      have h1 : (0 : ℚ) ≤ ((S - S0 : Nat) : ℚ) - ((I - I0 : Nat) : ℚ) := by
        rw [← Nat.cast_sub hdle]
        positivity
      have h2 : (0 : ℚ) < ((S - S0 : Nat) : ℚ) := by exact_mod_cast hpos
      positivity
    · rw [hcast]
      have h2 : (0 : ℚ) < ((S - S0 : Nat) : ℚ) := by exact_mod_cast hpos
      rw [div_mul_eq_mul_div, div_le_iff h2]
      have h3 : ((I - I0 : Nat) : ℚ) ≥ 0 := by positivity
      nlinarith
  · rw [if_neg hpos, if_neg hpos]
    norm_num

/-- Counterexample for C4 as stated ("never exceeds 100 for any pair of tick
readings"): previous totals (100, 90) against a reading with
`total = 200, idle_total = 200` give `Δtotal = 100 < Δidle = 110`; the u64
subtraction wraps and the computed percent is astronomically above 100. -/
theorem C4_counterexample :
    100 < (cpuLinePercent 100 90 ⟨0, 0, 0, 200, 0, 0, 0⟩).1 := by
  norm_num [cpuLinePercent, cpuLineTotals, u64add, u64wsub, U64MOD]

/-- Witness for C4's amended statement: readings 0 → (user 100, idle 50)
give percent `100 × (1 − 50/150)`. -/
theorem C4_witness :
    ((cpuLinePercent (cpuLineTotals ⟨0, 0, 0, 0, 0, 0, 0⟩).1
        (cpuLineTotals ⟨0, 0, 0, 0, 0, 0, 0⟩).2 ⟨100, 0, 0, 50, 0, 0, 0⟩).1
      = (if 0 < (cpuLineTotals ⟨100, 0, 0, 50, 0, 0, 0⟩).1
            - (cpuLineTotals ⟨0, 0, 0, 0, 0, 0, 0⟩).1 then
          100 * (1 - (((cpuLineTotals ⟨100, 0, 0, 50, 0, 0, 0⟩).2
              - (cpuLineTotals ⟨0, 0, 0, 0, 0, 0, 0⟩).2 : Nat) : ℚ)
            / (((cpuLineTotals ⟨100, 0, 0, 50, 0, 0, 0⟩).1
              - (cpuLineTotals ⟨0, 0, 0, 0, 0, 0, 0⟩).1 : Nat) : ℚ))
        else 0))
    ∧ 0 ≤ (cpuLinePercent (cpuLineTotals ⟨0, 0, 0, 0, 0, 0, 0⟩).1
        (cpuLineTotals ⟨0, 0, 0, 0, 0, 0, 0⟩).2 ⟨100, 0, 0, 50, 0, 0, 0⟩).1
    ∧ (cpuLinePercent (cpuLineTotals ⟨0, 0, 0, 0, 0, 0, 0⟩).1
        (cpuLineTotals ⟨0, 0, 0, 0, 0, 0, 0⟩).2 ⟨100, 0, 0, 50, 0, 0, 0⟩).1 ≤ 100 := by
  exact C4_cpu_percent_formula_and_bounds ⟨0, 0, 0, 0, 0, 0, 0⟩
    ⟨100, 0, 0, 50, 0, 0, 0⟩ (by decide) (by decide) (by decide) (by decide)
    (by decide) (by decide) (by decide) (by norm_num [U64MOD])

/-! ### Battery lemmas (C10) -/

/-- Counterexample for C10 as stated: nothing constrains the sysfs reading,
and a reading with `energy_now = 100 µWh > energy_full = 50 µWh`, status
"Charging" and positive power draw is reachable; the deficit subtraction
`energy_full - energy_now` then underflows (wraps in release builds), and the
time estimate explodes past 10^12 seconds. -/
theorem C10_counterexample :
    (batteryCollect true true
        ⟨some 100, none, none, some 50, none, none, some "Charging",
         some 1000000, none, some 1⟩).status = "Charging"
    ∧ 0 < (batteryCollect true true
        ⟨some 100, none, none, some 50, none, none, some "Charging",
         some 1000000, none, some 1⟩).power_watts
    ∧ (batteryCollect true true
        ⟨some 100, none, none, some 50, none, none, some "Charging",
         some 1000000, none, some 1⟩).energy_full
      < (batteryCollect true true
        ⟨some 100, none, none, some 50, none, none, some "Charging",
         some 1000000, none, some 1⟩).energy_now
    ∧ 1000000000000 < (batteryCollect true true
        ⟨some 100, none, none, some 50, none, none, some "Charging",
         some 1000000, none, some 1⟩).time_remaining_secs := by
  refine ⟨rfl, by norm_num [batteryCollect], by norm_num [batteryCollect], ?_⟩
  norm_num [batteryCollect, u64wsub, U64MOD]
  rw [Nat.lt_iff_add_one_le, Nat.le_floor_iff (by positivity)]
  norm_num

/-- C10 (amended): `BatteryCollector::collect` is total, but the charging
deficit `energy_full - energy_now` is a plain u64 subtraction that is only
well-defined when the reading satisfies `energy_now ≤ energy_full` (which
sysfs does not guarantee); under that hypothesis the computation is exact:
the time estimate is the honest (un-wrapped) deficit divided by the power
draw. -/
theorem C10_battery_deficit (hasAc : Bool) (r : BatSysfs)
    (hst : (batteryCollect true hasAc r).status = "Charging")
    (hpw : 0 < (batteryCollect true hasAc r).power_watts)
    (hle : (batteryCollect true hasAc r).energy_now
      ≤ (batteryCollect true hasAc r).energy_full)
    (hfull : (batteryCollect true hasAc r).energy_full < U64MOD) :
    (batteryCollect true hasAc r).time_remaining_secs
      = min (Nat.floor ((((batteryCollect true hasAc r).energy_full
            - (batteryCollect true hasAc r).energy_now : Nat) : ℚ) / 1000000
          / (batteryCollect true hasAc r).power_watts * 3600))
        (U64MOD - 1) := by
  have hwsub := u64wsub_eq (batteryCollect true hasAc r).energy_full
    (batteryCollect true hasAc r).energy_now hle hfull
  simp only [batteryCollect, Bool.not_true, Bool.false_eq_true, if_false] at hst hpw hwsub ⊢
  rw [if_pos hpw, if_pos hst, hwsub]

/-- Witness for C10's amended statement: 100 Wh full, 40 Wh now, 1 W draw,
charging — 216000 seconds (60 hours) to full. -/
theorem C10_witness :
    (batteryCollect true true
        ⟨some 40000000, none, none, some 100000000, none, none,
         some "Charging", some 1000000, none, some 1⟩).time_remaining_secs
      = 216000 := by
  have h := C10_battery_deficit true
    ⟨some 40000000, none, none, some 100000000, none, none,
     some "Charging", some 1000000, none, some 1⟩
    rfl (by norm_num [batteryCollect]) (by norm_num [batteryCollect])
    (by norm_num [batteryCollect, U64MOD])
  rw [h]
  norm_num [batteryCollect, U64MOD]

/-! ### History lemmas (C6) -/

theorem push_len_le (h : AppHistory) (c m : ℚ)
    (hc : h.cpu_samples.length ≤ 300) (hm : h.mem_samples.length ≤ 300) :
    (h.push c m).cpu_samples.length ≤ 300
      ∧ (h.push c m).mem_samples.length ≤ 300 := by
  unfold AppHistory.push MAX_SAMPLES
  constructor
  · by_cases hb : 300 < h.cpu_samples.length + 1 <;>
      simp [hb] <;> omega
  · by_cases hb : 300 < h.mem_samples.length + 1 <;>
      simp [hb] <;> omega

theorem push_cpu_subset (h : AppHistory) (c m : ℚ) :
    ∀ v ∈ (h.push c m).cpu_samples, v ∈ h.cpu_samples ++ [c] := by
  unfold AppHistory.push
  by_cases hb : MAX_SAMPLES < h.cpu_samples.length + 1 <;>
    simp only [List.length_append, List.length_singleton, hb, if_true, if_false] <;>
    intro v hv
  · exact List.tail_subset _ (by simpa using hv)
  · simpa using hv

theorem push_mem_subset (h : AppHistory) (c m : ℚ) :
    ∀ v ∈ (h.push c m).mem_samples, v ∈ h.mem_samples ++ [m] := by
  unfold AppHistory.push
  by_cases hb : MAX_SAMPLES < h.mem_samples.length + 1 <;>
    simp only [List.length_append, List.length_singleton, hb, if_true, if_false] <;>
    intro v hv
  · exact List.tail_subset _ (by simpa using hv)
  · simpa using hv

theorem upsert_find_ne (hs : List (String × AppHistory)) (n : String)
    (c m : ℚ) (k : String) (hk : k ≠ n) :
    assocFind (upsertHistory hs n c m) k = assocFind hs k := by
  have hnk : ¬ n = k := fun h => hk h.symm
  induction hs with
  | nil => simp [upsertHistory, assocFind, hnk]
  | cons e rest ih =>
    obtain ⟨en, eh⟩ := e
    by_cases hen : en = n
    · subst hen
      have hne : ¬ en = k := fun h => hk h.symm
      simp [upsertHistory, assocFind, hne]
    · simp only [upsertHistory, if_neg hen, assocFind]
      by_cases hek : en = k <;> simp [hek, ih]

theorem upsert_keys (hs : List (String × AppHistory)) (n : String) (c m : ℚ) :
    (upsertHistory hs n c m).map Prod.fst
      = if n ∈ hs.map Prod.fst then hs.map Prod.fst
        else hs.map Prod.fst ++ [n] := by
  induction hs with
  | nil => simp [upsertHistory]
  | cons e rest ih =>
    obtain ⟨en, eh⟩ := e
    by_cases hen : en = n
    · subst hen
      simp [upsertHistory]
    · simp only [upsertHistory, if_neg hen, List.map_cons, ih]
      have : ¬ n = en := fun h => hen h.symm
      by_cases hmem : n ∈ rest.map Prod.fst <;>
        simp [this, hmem]

theorem upsert_keys_nodup (hs : List (String × AppHistory)) (n : String)
    (c m : ℚ) (hnd : (hs.map Prod.fst).Nodup) :
    ((upsertHistory hs n c m).map Prod.fst).Nodup := by
  rw [upsert_keys]
  by_cases hmem : n ∈ hs.map Prod.fst
  · simpa [hmem] using hnd
  · simp only [hmem, if_false]
    simpa [List.nodup_append, hmem] using hnd

theorem upsert_inv (hs : List (String × AppHistory)) (n : String) (c m : ℚ)
    (hinv : ∀ e ∈ hs, e.2.cpu_samples.length ≤ 300 ∧ e.2.mem_samples.length ≤ 300) :
    ∀ e ∈ upsertHistory hs n c m,
      e.2.cpu_samples.length ≤ 300 ∧ e.2.mem_samples.length ≤ 300 := by
  induction hs with
  | nil =>
    intro e he
    simp only [upsertHistory, List.mem_singleton] at he
    subst he
    exact push_len_le _ _ _ (by simp [AppHistory.newH]) (by simp [AppHistory.newH])
  | cons f rest ih =>
    obtain ⟨fn, fh⟩ := f
    intro e he
    by_cases hfn : fn = n
    · subst hfn
      simp only [upsertHistory, if_pos rfl] at he
      rcases List.mem_cons.mp he with h1 | h1
      · subst h1
        have := hinv (fn, fh) (List.mem_cons_self _ _)
        exact push_len_le _ _ _ this.1 this.2
      · exact hinv e (List.mem_cons_of_mem _ h1)
    · simp only [upsertHistory, if_neg hfn] at he
      rcases List.mem_cons.mp he with h1 | h1
      · subst h1
        exact hinv (fn, fh) (List.mem_cons_self _ _)
      · exact ih (fun e' he' => hinv e' (List.mem_cons_of_mem _ he')) e h1

theorem seenLoop_find_unseen :
    ∀ (groups : List AppGroup) (hs : List (String × AppHistory)) (n : String),
      n ∉ seenNames groups →
      assocFind (historySeenLoop hs groups) n = assocFind hs n
  | [], hs, n, _ => rfl
  | g :: rest, hs, n, hn => by
    have hn1 : n ≠ g.leader.display_name := by
      intro h
      exact hn (by simp [seenNames, h])
    have hn2 : n ∉ seenNames rest := by
      intro h
      exact hn (by simp [seenNames] at h ⊢; exact Or.inr h)
    show assocFind (historySeenLoop
      (upsertHistory hs g.leader.display_name g.total_cpu (g.total_memory : ℚ))
      rest) n = _
    rw [seenLoop_find_unseen rest _ n hn2]
    exact upsert_find_ne hs _ _ _ n hn1

theorem seenLoop_keys_nodup :
    ∀ (groups : List AppGroup) (hs : List (String × AppHistory)),
      (hs.map Prod.fst).Nodup →
      ((historySeenLoop hs groups).map Prod.fst).Nodup
  | [], hs, hnd => hnd
  | g :: rest, hs, hnd =>
    seenLoop_keys_nodup rest _ (upsert_keys_nodup hs _ _ _ hnd)

theorem seenLoop_inv :
    ∀ (groups : List AppGroup) (hs : List (String × AppHistory)),
      (∀ e ∈ hs, e.2.cpu_samples.length ≤ 300 ∧ e.2.mem_samples.length ≤ 300) →
      ∀ e ∈ historySeenLoop hs groups,
        e.2.cpu_samples.length ≤ 300 ∧ e.2.mem_samples.length ≤ 300
  | [], hs, hinv => hinv
  | g :: rest, hs, hinv =>
    seenLoop_inv rest _ (upsert_inv hs _ _ _ hinv)

theorem assocFind_eq_none_iff {β : Type} (l : List (String × β)) (k : String) :
    assocFind l k = none ↔ k ∉ l.map Prod.fst := by
  induction l with
  | nil => simp [assocFind]
  | cons e rest ih =>
    obtain ⟨en, ev⟩ := e
    by_cases hek : en = k
    · subst hek
      simp [assocFind]
    · have hne : ¬ k = en := fun h => hek h.symm
      simp only [assocFind, if_neg hek, List.map_cons, ih]
      simp [hne]

theorem assocFind_filterMap_of_not_mem {β : Type}
    (f : String × β → Option (String × β))
    (hf : ∀ e r, f e = some r → r.1 = e.1) :
    ∀ (l : List (String × β)) (k : String), k ∉ l.map Prod.fst →
      assocFind (l.filterMap f) k = none
  | [], k, _ => rfl
  | e :: rest, k, hk => by
    have hk1 : e.1 ≠ k := by
      intro h
      exact hk (by simp [h])
    have hk2 : k ∉ rest.map Prod.fst := by
      intro h
      exact hk (by simp [h])
    rcases hfe : f e with _ | r
    · simp only [List.filterMap_cons, hfe]
      exact assocFind_filterMap_of_not_mem f hf rest k hk2
    · simp only [List.filterMap_cons, hfe, assocFind]
      rw [if_neg (by rw [hf e r hfe]; exact hk1)]
      exact assocFind_filterMap_of_not_mem f hf rest k hk2

theorem assocFind_filterMap {β : Type} (f : String × β → Option (String × β))
    (hf : ∀ e r, f e = some r → r.1 = e.1) :
    ∀ (l : List (String × β)) (k : String) (v : β),
      (l.map Prod.fst).Nodup → assocFind l k = some v →
      assocFind (l.filterMap f) k = (f (k, v)).map Prod.snd
  | [], k, v, _, hfind => by simp [assocFind] at hfind
  | e :: rest, k, v, hnd, hfind => by
    obtain ⟨en, ev⟩ := e
    simp only [List.map_cons, List.nodup_cons] at hnd
    by_cases hek : en = k
    · subst hek
      have hv : ev = v := by simpa [assocFind] using hfind
      subst hv
      rcases hfe : f (en, ev) with _ | r
      · simp only [List.filterMap_cons, hfe]
        rw [assocFind_filterMap_of_not_mem f hf rest en hnd.1]
        simp
      · simp only [List.filterMap_cons, hfe, assocFind]
        rw [if_pos (hf _ r hfe)]
        simp
    · simp only [assocFind, if_neg hek] at hfind
      rcases hfe : f (en, ev) with _ | r
      · simp only [List.filterMap_cons, hfe]
        exact assocFind_filterMap f hf rest k v hnd.2 hfind
      · simp only [List.filterMap_cons, hfe, assocFind]
        rw [if_neg (by rw [hf _ r hfe]; exact hek)]
        exact assocFind_filterMap f hf rest k v hnd.2 hfind

/-- C6: after `AppHistoryTracker::update` on a well-formed tracker (series at
most 300 long, distinct keys, nonnegative samples — all invariants the
tracker maintains), every series still holds at most 300 samples; a display
name absent this cycle has a zero sample appended, and its entry is evicted
exactly when every retained sample is zero — never while a nonzero sample
remains. -/
theorem C6_history_bounds_and_eviction (hs : List (String × AppHistory))
    (groups : List AppGroup)
    (hlen : ∀ e ∈ hs, e.2.cpu_samples.length ≤ 300 ∧ e.2.mem_samples.length ≤ 300)
    (hkeys : (hs.map Prod.fst).Nodup)
    (hnn : ∀ e ∈ hs, (∀ v ∈ e.2.cpu_samples, 0 ≤ v)
      ∧ (∀ v ∈ e.2.mem_samples, 0 ≤ v)) :
    (∀ e ∈ historyUpdate hs groups,
        e.2.cpu_samples.length ≤ 300 ∧ e.2.mem_samples.length ≤ 300)
    ∧ (∀ (n : String) (h : AppHistory), (n, h) ∈ hs → n ∉ seenNames groups →
        assocFind (historyUpdate hs groups) n
          = if (∀ v ∈ (h.push 0 0).cpu_samples, v = 0)
              ∧ (∀ v ∈ (h.push 0 0).mem_samples, v = 0)
            then none else some (h.push 0 0)) := by
  constructor
  · intro e he
    unfold historyUpdate at he
    obtain ⟨e', he', hfe⟩ := List.mem_filterMap.mp he
    have hinv' := seenLoop_inv groups hs hlen e' he'
    simp only [retainHistory] at hfe
    split at hfe
    · cases hfe
      exact hinv'
    · split at hfe
      · cases hfe
        exact push_len_le _ _ _ hinv'.1 hinv'.2
      · cases hfe
  · intro n h hmem hnseen
    have hfind_hs : assocFind hs n = some h :=
      assocFind_eq_some_of_mem hs n h hmem hkeys
    have hfind_loop : assocFind (historySeenLoop hs groups) n = some h := by
      rw [seenLoop_find_unseen groups hs n hnseen, hfind_hs]
    have hnd_loop := seenLoop_keys_nodup groups hs hkeys
    have hkeypres : ∀ e r, retainHistory (seenNames groups) e = some r →
        r.1 = e.1 := by
      intro e r hr
      simp only [retainHistory] at hr
      split at hr
      · cases hr; rfl
      · split at hr
        · cases hr; rfl
        · cases hr
    unfold historyUpdate
    rw [assocFind_filterMap (retainHistory (seenNames groups)) hkeypres
      (historySeenLoop hs groups) n h hnd_loop hfind_loop]
    have hnnh := hnn (n, h) hmem
    have hnncpu : ∀ v ∈ (h.push 0 0).cpu_samples, 0 ≤ v := by
      intro v hv
      rcases List.mem_append.mp (push_cpu_subset h 0 0 v hv) with h1 | h1
      · exact hnnh.1 v h1
      · simp only [List.mem_singleton] at h1
        subst h1
        exact le_refl 0
    have hnnmem : ∀ v ∈ (h.push 0 0).mem_samples, 0 ≤ v := by
      intro v hv
      rcases List.mem_append.mp (push_mem_subset h 0 0 v hv) with h1 | h1
      · exact hnnh.2 v h1
      · simp only [List.mem_singleton] at h1
        subst h1
        exact le_refl 0
    simp only [retainHistory, if_neg hnseen]
    by_cases hz : (∀ v ∈ (h.push 0 0).cpu_samples, v = 0)
        ∧ (∀ v ∈ (h.push 0 0).mem_samples, v = 0)
    · rw [if_pos hz]
      have hfalse : ((h.push 0 0).cpu_samples.any (fun v => decide (0 < v))
          || (h.push 0 0).mem_samples.any (fun v => decide (0 < v))) = false := by
        simp only [Bool.or_eq_false_iff, List.any_eq_false, decide_eq_true_eq]
        constructor
        · intro v hv
          rw [hz.1 v hv]
          exact lt_irrefl 0
        · intro v hv
          rw [hz.2 v hv]
          exact lt_irrefl 0
      rw [hfalse]
      simp
    · rw [if_neg hz]
      have htrue : ((h.push 0 0).cpu_samples.any (fun v => decide (0 < v))
          || (h.push 0 0).mem_samples.any (fun v => decide (0 < v))) = true := by
        simp only [Bool.or_eq_true, List.any_eq_true, decide_eq_true_eq]
        rcases not_and_or.mp hz with hc | hc
        · push_neg at hc
          obtain ⟨v, hv, hvne⟩ := hc
          exact Or.inl ⟨v, hv, lt_of_le_of_ne (hnncpu v hv) (Ne.symm hvne)⟩
        · push_neg at hc
          obtain ⟨v, hv, hvne⟩ := hc
          exact Or.inr ⟨v, hv, lt_of_le_of_ne (hnnmem v hv) (Ne.symm hvne)⟩
      rw [htrue]
      simp

/-- Witness for C6: a cycle with no groups; the "vim" entry (nonzero sample
retained) gets a zero sample appended and survives, the all-zero "zero"
entry is evicted. -/
theorem C6_witness :
    (assocFind (historyUpdate
        [("vim", ⟨"vim", [1], [2]⟩), ("zero", ⟨"zero", [0], [0]⟩)] []) "vim"
      = if (∀ v ∈ ((⟨"vim", [1], [2]⟩ : AppHistory).push 0 0).cpu_samples, v = 0)
            ∧ (∀ v ∈ ((⟨"vim", [1], [2]⟩ : AppHistory).push 0 0).mem_samples, v = 0)
          then none else some ((⟨"vim", [1], [2]⟩ : AppHistory).push 0 0))
    ∧ (assocFind (historyUpdate
        [("vim", ⟨"vim", [1], [2]⟩), ("zero", ⟨"zero", [0], [0]⟩)] []) "zero"
      = if (∀ v ∈ ((⟨"zero", [0], [0]⟩ : AppHistory).push 0 0).cpu_samples, v = 0)
            ∧ (∀ v ∈ ((⟨"zero", [0], [0]⟩ : AppHistory).push 0 0).mem_samples, v = 0)
          then none else some ((⟨"zero", [0], [0]⟩ : AppHistory).push 0 0)) := by
  have h := C6_history_bounds_and_eviction
    [("vim", ⟨"vim", [1], [2]⟩), ("zero", ⟨"zero", [0], [0]⟩)] []
    (by decide) (by decide) (by decide)
  exact ⟨h.2 "vim" ⟨"vim", [1], [2]⟩ (by decide) (by decide),
    h.2 "zero" ⟨"zero", [0], [0]⟩ (by decide) (by decide)⟩

/-- C7: display-name resolution evaluates exactly the priority order
(1) non-empty window title for the pid, (2) desktop-entry name keyed by the
executable basename — exact, then lower-cased, (3) for recognized script
interpreters a name derived from the first path-like non-flag argument
(parent directory name for generic entry-point stems, per
`script_display_name`), (4) the incoming comm name — first match wins. -/
theorem C7_display_name_priority (info : ProcessInfo)
    (wt : List (Int × String)) (dn : List (String × String)) :
    (∀ t, assocFind wt info.pid = some t → t ≠ "" →
        resolve_display_name info wt dn = t)
    ∧ ((assocFind wt info.pid = none ∨ assocFind wt info.pid = some "") →
        ((∀ d, assocFind dn ((rsplitSlashNext info.exe_path).getD info.name)
              = some d →
            resolve_display_name info wt dn = d)
        ∧ (assocFind dn ((rsplitSlashNext info.exe_path).getD info.name) = none →
            ∀ d, assocFind dn
                (lowerStr ((rsplitSlashNext info.exe_path).getD info.name))
                = some d →
              resolve_display_name info wt dn = d)
        ∧ (assocFind dn ((rsplitSlashNext info.exe_path).getD info.name) = none →
           assocFind dn (lowerStr ((rsplitSlashNext info.exe_path).getD info.name))
              = none →
            ((is_interpreter ((rsplitSlashNext info.exe_path).getD info.name) = true →
              ∀ nm, script_display_name info.command = some nm →
                resolve_display_name info wt dn = nm)
            ∧ ((is_interpreter ((rsplitSlashNext info.exe_path).getD info.name)
                  = false
                ∨ script_display_name info.command = none) →
                resolve_display_name info wt dn = info.display_name))))) := by
  constructor
  · intro t ht hne
    simp [resolve_display_name, ht, hne]
  · intro hmiss
    have hfb : resolve_display_name info wt dn
        = (match assocFind dn ((rsplitSlashNext info.exe_path).getD info.name) with
          | some d => d
          | none =>
            match assocFind dn
                (lowerStr ((rsplitSlashNext info.exe_path).getD info.name)) with
            | some d => d
            | none =>
              if is_interpreter ((rsplitSlashNext info.exe_path).getD info.name) then
                match script_display_name info.command with
                | some nm => nm
                | none => info.display_name
              else info.display_name) := by
      rcases hmiss with h | h <;> simp [resolve_display_name, h]
    refine ⟨?_, ?_, ?_⟩
    · intro d hd
      rw [hfb, hd]
    · intro h1 d hd
      rw [hfb, h1, hd]
    · intro h1 h2
      constructor
      · intro hi nm hnm
        rw [hfb, h1, h2, hnm]
        simp [hi]
      · intro hor
        rcases hor with hi | hs
        · rw [hfb, h1, h2]
          simp [hi]
        · rw [hfb, h1, h2, hs]
          by_cases hi : is_interpreter ((rsplitSlashNext info.exe_path).getD info.name) <;>
            simp [hi]

/-- Witness for C7: one concrete input per priority level. -/
theorem C7_witness :
    resolve_display_name
        { ProcessInfo.defaultInfo with
          pid := 5, name := "firefox-bin",
          display_name := "firefox-bin" } [((5 : Int), "Firefox")] [] = "Firefox"
    ∧ resolve_display_name
        { ProcessInfo.defaultInfo with
          pid := 6, name := "firefox-bin",
          display_name := "firefox-bin", exe_path := "/usr/bin/firefox" }
        [] [("firefox", "Firefox")] = "Firefox"
    ∧ resolve_display_name
        { ProcessInfo.defaultInfo with
          pid := 7, name := "FireFox",
          display_name := "FireFox", exe_path := "/usr/bin/FireFox" }
        [] [("firefox", "Firefox")] = "Firefox"
    ∧ resolve_display_name
        { ProcessInfo.defaultInfo with
          pid := 8, name := "python3",
          display_name := "python3", exe_path := "/usr/bin/python3",
          command := "python3 /opt/ComfyUI/main.py" } [] [] = "ComfyUI"
    ∧ resolve_display_name
        { ProcessInfo.defaultInfo with
          pid := 9, name := "foo",
          display_name := "foo", exe_path := "/usr/bin/foo" } [] [] = "foo" := by
  refine ⟨?_, ?_, ?_, ?_, ?_⟩
  · exact (C7_display_name_priority _ _ _).1 "Firefox" (by decide) (by decide)
  · exact ((C7_display_name_priority _ _ _).2 (Or.inl (by decide))).1 "Firefox"
      (by decide)
  · exact ((C7_display_name_priority _ _ _).2 (Or.inl (by decide))).2.1
      (by decide) "Firefox" (by decide)
  · exact (((C7_display_name_priority _ _ _).2 (Or.inl (by decide))).2.2
      (by decide) (by decide)).1 (by decide) "ComfyUI" (by decide)
  · exact (((C7_display_name_priority _ _ _).2 (Or.inl (by decide))).2.2
      (by decide) (by decide)).2 (Or.inl (by decide))
